import Mathlib

/-!
# WS2812B (NeoPixel) SPI driver for the Raspberry Pi Pico: verification development

Shallow embedding of `neopixel.h` / `neopixel.c`.

* `unsigned char` / `uint8_t` values are natural numbers; the places where the C code
  truncates to 8 bits carry an explicit `% 256`.
* `int` values (buffer offsets, loop counters) are integers.  Every offset that occurs is
  bounded by the length of a buffer that fits the 32-bit address space, so no `int`
  arithmetic wraps.
* Arrays are lists.  A load or store outside the array is undefined behaviour in C; the
  embedding makes it explicit by returning `none`.
* `for` loops with a constant trip count are recursive functions on the number of
  iterations that remain.
* The payload buffer carries a ghost log of the indices the encoder stores to.
* The pattern routines run on core 0 and `displayTask` on core 1; the two-core section models
  their runs as interleavings of atomic steps under the mutex `ledBufferMutex`.
* The pattern routines take the sequence of the values of `rand()` as a parameter and carry
  two ghost logs: their calls of `mutex_enter_blocking`, `mutex_exit` and `sleep_ms`, and
  their stores to `leds`.
-/

namespace NeoPixel

/-! ## Constants of `neopixel.h` -/

/-- Number of WS2812B LEDs in the strip (`#define LED_COUNT 8`). -/
def LED_COUNT : Nat := 8

/-- Number of bytes that define a colour (`#define COLOR_BYTES 3`). -/
def COLOR_BYTES : Nat := 3

/-- Bytes needed to hold all colours (`#define LED_BYTES (LED_COUNT * COLOR_BYTES)`). -/
def LED_BYTES : Nat := LED_COUNT * COLOR_BYTES

/-- Number of SPI bytes sent for a WS2812B reset (`#define RESETBYTES 50`). -/
def RESETBYTES : Nat := 50

/-- SPI bits (here: SPI bytes) per WS2812B clock cycle (`#define SPI_BITS_PER_CYCLE 8`). -/
def SPI_BITS_PER_CYCLE : Nat := 8

/-- SPI bytes sent in each refresh
(`#define SPIBYTES (RESETBYTES + SPI_BITS_PER_CYCLE * LED_BYTES)`). -/
def SPIBYTES : Nat := RESETBYTES + SPI_BITS_PER_CYCLE * LED_BYTES

/-- SPI byte for a WS2812B logical 0 (`#define T0_BYTE 0xC0`). -/
def T0_BYTE : Nat := 0xC0

/-- SPI byte for a WS2812B logical 1 (`#define T1_BYTE 0xFC`). -/
def T1_BYTE : Nat := 0xFC

/-- The colour of one LED: `typedef struct { unsigned char G, R, B; } LEDPixel;`. -/
structure LEDPixel where
  G : Nat
  R : Nat
  B : Nat
deriving DecidableEq

/-- The byte array `spibuffer` of `displayTask`.  `bytes` is the content of the array.
`stores` is a ghost field that is not part of the C state: it records, oldest first, the
indices at which `colorByteToSPIBuffer` has stored a byte. -/
structure SpiBuffer where
  bytes : List Nat
  stores : List Int
deriving DecidableEq

/-! ## Memory primitives -/

/-- The store `spibuffer[i] = v` of `colorByteToSPIBuffer`; `none` when `i` is outside the
array. -/
def storeByte (spibuffer : SpiBuffer) (i : Int) (v : Nat) : Option SpiBuffer :=
  if 0 ≤ i ∧ i < (spibuffer.bytes.length : Int) then
    some { bytes := spibuffer.bytes.set i.toNat v, stores := spibuffer.stores ++ [i] }
  else none

/-- The call `memset(buffer, v, n)`: the first `n` bytes become `v`; `none` when the array
is shorter than `n`. -/
def memset (buffer : SpiBuffer) (v : Nat) (n : Nat) : Option SpiBuffer :=
  if n ≤ buffer.bytes.length then
    some { buffer with bytes := List.replicate n v ++ buffer.bytes.drop n }
  else none

/-! ## `colorByteToSPIBuffer` -/

/-- The statement `colorbyte <<= 1` on an `unsigned char`: the shifted value is truncated to
8 bits. -/
def shiftByte (colorbyte : Nat) : Nat := (colorbyte <<< 1) % 256

/-- The loop of `colorByteToSPIBuffer` with `n` iterations left:
`spibuffer[bufferoffset++] = (colorbyte & 0x80) ? T1_BYTE : T0_BYTE; colorbyte <<= 1;`. -/
def colorByteLoop : Nat → SpiBuffer → Int → Nat → Option (SpiBuffer × Int)
  | 0, spibuffer, bufferoffset, _ => some (spibuffer, bufferoffset)
  | n + 1, spibuffer, bufferoffset, colorbyte =>
    match storeByte spibuffer bufferoffset
        (if colorbyte &&& 0x80 ≠ 0 then T1_BYTE else T0_BYTE) with
    | none => none
    | some spibuffer1 => colorByteLoop n spibuffer1 (bufferoffset + 1) (shiftByte colorbyte)

/-- The function `colorByteToSPIBuffer(spibuffer, bufferoffset, colorbyte)`: the buffer after
the call and the returned offset. -/
def colorByteToSPIBuffer (spibuffer : SpiBuffer) (bufferoffset : Int) (colorbyte : Nat) :
    Option (SpiBuffer × Int) :=
  colorByteLoop SPI_BITS_PER_CYCLE spibuffer bufferoffset colorbyte

/-! ## `displayTask` -/

/-- The body of the encoding loop of `displayTask` for the pixel index `loop`: compute the
offset of the pixel, then insert its `G`, `R` and `B` bytes.  The result is the buffer and
the value of the local `bufferoffset` after the body. -/
def displayPixel (leds : List LEDPixel) (loop : Nat) (spibuffer : SpiBuffer) :
    Option (SpiBuffer × Int) :=
  match leds[loop]? with
  | none => none
  | some px =>
    let bufferoffset : Int := (loop : Int) * COLOR_BYTES * SPI_BITS_PER_CYCLE
    match colorByteToSPIBuffer spibuffer bufferoffset px.G with
    | none => none
    | some (spibuffer1, bufferoffset1) =>
      match colorByteToSPIBuffer spibuffer1 bufferoffset1 px.R with
      | none => none
      | some (spibuffer2, bufferoffset2) =>
        colorByteToSPIBuffer spibuffer2 bufferoffset2 px.B

/-- The loop `for (int loop = 0; loop < LED_COUNT; loop++)` of `displayTask` with `n`
iterations left, the next one for the pixel index `loop`.  The state is the pair of the
locals `spibuffer` and `bufferoffset`. -/
def displayLoop (leds : List LEDPixel) :
    Nat → Nat → SpiBuffer × Int → Option (SpiBuffer × Int)
  | 0, _, st => some st
  | n + 1, loop, st =>
    match displayPixel leds loop st.1 with
    | none => none
    | some st1 => displayLoop leds n (loop + 1) st1

/-- The composing part of one cycle of `displayTask`, from the `memset` to the release of the
mutex: the locals `spibuffer` and `bufferoffset` after it. -/
def displayCompose (leds : List LEDPixel) (st : SpiBuffer × Int) : Option (SpiBuffer × Int) :=
  match memset st.1 0 SPIBYTES with
  | none => none
  | some spibuffer => displayLoop leds LED_COUNT 0 (spibuffer, st.2)

/-- One cycle of `displayTask`: the bytes handed to
`spi_write_blocking(pspi0, spibuffer, SPIBYTES)`. -/
def displayPayload (leds : List LEDPixel) (st : SpiBuffer × Int) : Option (List Nat) :=
  match displayCompose leds st with
  | none => none
  | some st1 =>
    if SPIBYTES ≤ st1.1.bytes.length then some (st1.1.bytes.take SPIBYTES) else none

/-! ## `clearLEDs` -/

/-- The stores of one iteration of `clearLEDs`:
`leds[loop].G = 0; leds[loop].R = 0; leds[loop].B = 0;`. -/
def clearPixel (leds : List LEDPixel) (loop : Nat) : Option (List LEDPixel) :=
  match leds[loop]? with
  | none => none
  | some px =>
    let px1 : LEDPixel := { px with G := 0 }
    let px2 : LEDPixel := { px1 with R := 0 }
    let px3 : LEDPixel := { px2 with B := 0 }
    some (leds.set loop px3)

/-- The loop of `clearLEDs` with `n` iterations left, the next one for index `loop`. -/
def clearLoop : Nat → Nat → List LEDPixel → Option (List LEDPixel)
  | 0, _, leds => some leds
  | n + 1, loop, leds =>
    match clearPixel leds loop with
    | none => none
    | some leds1 => clearLoop n (loop + 1) leds1

/-- The function `clearLEDs()`, as a transformer of the pixel buffer `leds`. -/
def clearLEDs (leds : List LEDPixel) : Option (List LEDPixel) :=
  clearLoop LED_COUNT 0 leds

/-! ## Reference encodings used in the statements -/

/-- The symbol of one protocol bit. -/
def symbolOf (bit : Bool) : Nat := if bit then T1_BYTE else T0_BYTE

/-- The eight symbols of a colour byte, most significant bit first. -/
def encodeByte (b : Nat) : List Nat :=
  (List.range 8).map (fun k => symbolOf (b.testBit (7 - k)))

/-- The 24 symbols of a pixel in the wire order G, R, B. -/
def encodePixel (px : LEDPixel) : List Nat :=
  encodeByte px.G ++ encodeByte px.R ++ encodeByte px.B

/-- The symbols of all pixels in index order. -/
def encodeLeds (leds : List LEDPixel) : List Nat :=
  (leds.map encodePixel).flatten

/-- The pixel buffer of the scenario: pixel 0 is `(G=1, R=2, B=4)`, the others are zero. -/
def scenarioLeds : List LEDPixel :=
  ⟨1, 2, 4⟩ :: List.replicate 7 ⟨0, 0, 0⟩

/-- The indices `o, o + 1, ..., o + n - 1`. -/
def indexRun (o : Int) (n : Nat) : List Int :=
  (List.range n).map (fun (k : Nat) => o + (k : Int))

/-- Reading one symbol back: `T1_BYTE` is the bit 1, `T0_BYTE` is the bit 0, any other byte
is not a symbol. -/
def decodeSymbol (s : Nat) : Option Nat :=
  if s = T1_BYTE then some 1 else if s = T0_BYTE then some 0 else none

/-- Reading a symbol sequence back, the first symbol being the most significant bit; `acc`
holds the bits read so far. -/
def decodeSymbols : List Nat → Nat → Option Nat
  | [], acc => some acc
  | s :: rest, acc =>
    match decodeSymbol s with
    | none => none
    | some bit => decodeSymbols rest (2 * acc + bit)

/-- The colour byte that a group of symbols stands for. -/
def decodeByte (symbols : List Nat) : Option Nat := decodeSymbols symbols 0

/-! ## `setLEDColors` -/

/-- Modelled from the spec: the function `setLEDColors(led, colors)`, which `neopixel.h`
declares and `neopixel.c` does not define.  It is the spec's `setPixel(index, color)`, which
"fails (silently clamped or rejected) if `index` is out of range; otherwise overwrites that
pixel's three channels".  Of the two policies the model takes rejection: a call with an
index outside `0..LED_COUNT-1` leaves the pixel buffer as it was. -/
def setLEDColors (leds : List LEDPixel) (led : Int) (colors : LEDPixel) : List LEDPixel :=
  if 0 ≤ led ∧ led < (LED_COUNT : Int) then
    leds.set led.toNat { G := colors.G, R := colors.R, B := colors.B }
  else leds

/-! ## Two cores: `clearLEDs` on core 0 against one cycle of `displayTask` on core 1

The two cores share the pixel buffer `leds` and the mutex `ledBufferMutex`; the payload
buffer and `bufferoffset` are locals of `displayTask`.  A run is an interleaving of atomic
steps, one per access to the shared state: taking or releasing the mutex, one load of a
channel of `leds` (with the encoding of that channel into the private payload buffer), one
store to a channel of `leds`.  `mutex_enter_blocking` takes the mutex when it is free and
otherwise makes no progress; `mutex_exit` frees it. -/

/-- The two cores: `core0` runs `main` and the pattern routines, `core1` runs `displayTask`
(`multicore_launch_core1(displayTask)`). -/
inductive Core where
  | core0
  | core1
deriving DecidableEq

/-- The fields of `LEDPixel`. -/
inductive Channel where
  | G
  | R
  | B
deriving DecidableEq

/-- The load `px.ch`. -/
def LEDPixel.channel (px : LEDPixel) : Channel → Nat
  | Channel.G => px.G
  | Channel.R => px.R
  | Channel.B => px.B

/-- The store `px.ch = 0` of `clearLEDs`. -/
def LEDPixel.clearChannel (px : LEDPixel) : Channel → LEDPixel
  | Channel.G => { px with G := 0 }
  | Channel.R => { px with R := 0 }
  | Channel.B => { px with B := 0 }

/-- Where `displayTask` stands in its cycle. -/
inductive DisplayPc where
  /-- Before `memset(spibuffer, 0, SPIBYTES)`. -/
  | atMemset
  /-- Before `mutex_enter_blocking(&ledBufferMutex)`. -/
  | atMutexEnter
  /-- In the loop, before `bufferoffset = colorByteToSPIBuffer(.., leds[loop].ch)`; for the
  channel `G` the statement `bufferoffset = loop * COLOR_BYTES * SPI_BITS_PER_CYCLE` comes
  first. -/
  | atEncode (loop : Nat) (ch : Channel)
  /-- Before `mutex_exit(&ledBufferMutex)`. -/
  | atMutexExit
  /-- The frame is composed: before `spi_write_blocking(pspi0, spibuffer, SPIBYTES)`. -/
  | composed
deriving DecidableEq

/-- Where `clearLEDs` stands. -/
inductive ClearPc where
  /-- Before `mutex_enter_blocking(&ledBufferMutex)`. -/
  | atMutexEnter
  /-- In the loop, before `leds[loop].ch = 0`. -/
  | atStore (loop : Nat) (ch : Channel)
  /-- Before `mutex_exit(&ledBufferMutex)`. -/
  | atMutexExit
  /-- After the return. -/
  | returned
deriving DecidableEq

/-- The state of the two cores. -/
structure System where
  leds : List LEDPixel
  mutexOwner : Option Core
  displayPc : DisplayPc
  spibuffer : SpiBuffer
  bufferoffset : Int
  clearPc : ClearPc
deriving DecidableEq

/-- The test of `for (...; loop < LED_COUNT; ...)` in `displayTask`. -/
def displayLoopHead (loop : Nat) : DisplayPc :=
  if loop < LED_COUNT then DisplayPc.atEncode loop Channel.G else DisplayPc.atMutexExit

/-- The test of `for (...; loop < LED_COUNT; ...)` in `clearLEDs`. -/
def clearLoopHead (loop : Nat) : ClearPc :=
  if loop < LED_COUNT then ClearPc.atStore loop Channel.G else ClearPc.atMutexExit

/-- One atomic step of `displayTask` on core 1. -/
def displayStep (s : System) : Option System :=
  match s.displayPc with
  | DisplayPc.atMemset =>
    match memset s.spibuffer 0 SPIBYTES with
    | none => none
    | some spibuffer => some { s with spibuffer := spibuffer, displayPc := DisplayPc.atMutexEnter }
  | DisplayPc.atMutexEnter =>
    if s.mutexOwner = none then
      some { s with mutexOwner := some Core.core1, displayPc := displayLoopHead 0 }
    else some s
  | DisplayPc.atEncode loop ch =>
    match s.leds[loop]? with
    | none => none
    | some px =>
      let bufferoffset : Int :=
        match ch with
        | Channel.G => (loop : Int) * COLOR_BYTES * SPI_BITS_PER_CYCLE
        | _ => s.bufferoffset
      match colorByteToSPIBuffer s.spibuffer bufferoffset (px.channel ch) with
      | none => none
      | some (spibuffer1, bufferoffset1) =>
        some { s with
          spibuffer := spibuffer1
          bufferoffset := bufferoffset1
          displayPc :=
            match ch with
            | Channel.G => DisplayPc.atEncode loop Channel.R
            | Channel.R => DisplayPc.atEncode loop Channel.B
            | Channel.B => displayLoopHead (loop + 1) }
  | DisplayPc.atMutexExit => some { s with mutexOwner := none, displayPc := DisplayPc.composed }
  | DisplayPc.composed => some s

/-- One atomic step of `clearLEDs` on core 0. -/
def clearStep (s : System) : Option System :=
  match s.clearPc with
  | ClearPc.atMutexEnter =>
    if s.mutexOwner = none then
      some { s with mutexOwner := some Core.core0, clearPc := clearLoopHead 0 }
    else some s
  | ClearPc.atStore loop ch =>
    match s.leds[loop]? with
    | none => none
    | some px =>
      some { s with
        leds := s.leds.set loop (px.clearChannel ch)
        clearPc :=
          match ch with
          | Channel.G => ClearPc.atStore loop Channel.R
          | Channel.R => ClearPc.atStore loop Channel.B
          | Channel.B => clearLoopHead (loop + 1) }
  | ClearPc.atMutexExit => some { s with mutexOwner := none, clearPc := ClearPc.returned }
  | ClearPc.returned => some s

/-- One step of the system: the scheduled core takes its next atomic step. -/
def systemStep (s : System) : Core → Option System
  | Core.core0 => clearStep s
  | Core.core1 => displayStep s

/-- A run under a schedule, the list of the cores that step in turn. -/
def runSchedule : List Core → System → Option System
  | [], s => some s
  | c :: schedule, s =>
    match systemStep s c with
    | none => none
    | some s1 => runSchedule schedule s1

/-- The state in which `clearLEDs` is called on core 0 while `displayTask` on core 1 starts a
cycle: the mutex is free. -/
def startSystem (leds : List LEDPixel) (st : SpiBuffer × Int) : System :=
  { leds := leds, mutexOwner := none, displayPc := DisplayPc.atMemset,
    spibuffer := st.1, bufferoffset := st.2, clearPc := ClearPc.atMutexEnter }

/-! ## Invariant of the two-core runs -/

/-- The pixel buffer after `clearLEDs`. -/
def zeroLeds : List LEDPixel := List.replicate LED_COUNT ⟨0, 0, 0⟩

/-- The symbols of the pixel `px` that `displayTask` has written when it stands before the
channel `ch`. -/
def channelPrefix (px : LEDPixel) : Channel → List Nat
  | Channel.G => []
  | Channel.R => encodeByte px.G
  | Channel.B => encodeByte px.G ++ encodeByte px.R

/-- The pixel `px` when `clearLEDs` stands before the store to its channel `ch`. -/
def clearedBefore (px : LEDPixel) : Channel → LEDPixel
  | Channel.G => px
  | Channel.R => { px with G := 0 }
  | Channel.B => { px with G := 0, R := 0 }

/-- The places of `displayTask` between `mutex_enter_blocking` and `mutex_exit`. -/
def displayInCS : DisplayPc → Prop
  | DisplayPc.atEncode _ _ => True
  | DisplayPc.atMutexExit => True
  | _ => False

/-- The places of `clearLEDs` between `mutex_enter_blocking` and `mutex_exit`. -/
def clearInCS : ClearPc → Prop
  | ClearPc.atStore _ _ => True
  | ClearPc.atMutexExit => True
  | _ => False

/-- What the pixel buffer holds at each place of `clearLEDs`, `leds0` being the buffer at the
call. -/
def ClearInv (leds0 leds : List LEDPixel) : ClearPc → Prop
  | ClearPc.atMutexEnter => leds = leds0
  | ClearPc.atStore loop ch =>
    ∃ px, leds0[loop]? = some px ∧
      leds = List.replicate loop ⟨0, 0, 0⟩ ++ clearedBefore px ch :: leds0.drop (loop + 1)
  | ClearPc.atMutexExit => leds = zeroLeds
  | ClearPc.returned => leds = zeroLeds

/-- What the locals of `displayTask` hold at each of its places. -/
def DisplayInv (leds0 leds : List LEDPixel) (spibuffer : SpiBuffer) (bufferoffset : Int) :
    DisplayPc → Prop
  | DisplayPc.atMemset => spibuffer.bytes.length = SPIBYTES
  | DisplayPc.atMutexEnter => spibuffer.bytes = List.replicate SPIBYTES 0
  | DisplayPc.atEncode loop ch =>
    (leds = leds0 ∨ leds = zeroLeds) ∧
    ∃ px, leds[loop]? = some px ∧
      spibuffer.bytes = encodeLeds (leds.take loop) ++ channelPrefix px ch ++
        List.replicate (SPIBYTES - (24 * loop + (channelPrefix px ch).length)) 0 ∧
      (ch ≠ Channel.G →
        bufferoffset = ((24 * loop + (channelPrefix px ch).length : Nat) : Int))
  | DisplayPc.atMutexExit =>
    (leds = leds0 ∨ leds = zeroLeds) ∧
      spibuffer.bytes = encodeLeds leds ++ List.replicate RESETBYTES 0
  | DisplayPc.composed =>
    ∃ L, (L = leds0 ∨ L = zeroLeds) ∧
      spibuffer.bytes = encodeLeds L ++ List.replicate RESETBYTES 0

/-- The invariant of the runs that start in `startSystem leds0 st`. -/
structure SystemInv (leds0 : List LEDPixel) (s : System) : Prop where
  ledsLength : s.leds.length = LED_COUNT
  ownerDisplay : s.mutexOwner = some Core.core1 ↔ displayInCS s.displayPc
  ownerClear : s.mutexOwner = some Core.core0 ↔ clearInCS s.clearPc
  clearInv : ClearInv leds0 s.leds s.clearPc
  displayInv : DisplayInv leds0 s.leds s.spibuffer s.bufferoffset s.displayPc

/-- A schedule in which `displayTask` takes the mutex first and the cores then alternate. -/
def displayFirstSchedule : List Core :=
  [Core.core1, Core.core1, Core.core1] ++ (List.replicate 60 [Core.core0, Core.core1]).flatten

/-- A schedule in which `clearLEDs` takes the mutex first and the cores then alternate. -/
def clearFirstSchedule : List Core :=
  Core.core0 :: (List.replicate 60 [Core.core1, Core.core0]).flatten

/-! ## Reading a frame back -/

/-- The values of an `unsigned char`: the three channels of a pixel are below 256. -/
def LEDPixel.valid (px : LEDPixel) : Prop := px.G < 256 ∧ px.R < 256 ∧ px.B < 256

/-- The pixel that the 24 symbols of pixel `i` in the payload `p` stand for, in the wire
order G, R, B. -/
def decodePixelAt (p : List Nat) (i : Nat) : Option LEDPixel :=
  match decodeByte ((p.drop (24 * i)).take 8), decodeByte ((p.drop (24 * i + 8)).take 8),
      decodeByte ((p.drop (24 * i + 16)).take 8) with
  | some g, some r, some b => some ⟨g, r, b⟩
  | _, _, _ => none

/-- The pixels that a payload stands for, one entry per pixel index. -/
def decodeFrame (p : List Nat) : List (Option LEDPixel) :=
  (List.range LED_COUNT).map (decodePixelAt p)

/-! ## The pattern routines on core 0

`rand` is the sequence of the values that `rand()` returns: `rand n` is the result of call
number `n`, a non-negative `int`.  A routine transforms the state of core 0; it ends in
`Except.ok` when it returns and in `Except.error` when it reaches undefined behaviour (a
store outside `leds`, a remainder by zero); either way the result carries the state reached,
with the events so far. -/

/-- The calls of a routine that matter for the lock discipline. -/
inductive Event where
  /-- The call `mutex_enter_blocking(&ledBufferMutex)`. -/
  | mutexEnter
  /-- The call `mutex_exit(&ledBufferMutex)`. -/
  | mutexExit
  /-- The call `sleep_ms(ms)`. -/
  | sleep (ms : Nat)
deriving DecidableEq

/-- A store `leds[index].channel = value` that a routine has made, the value as converted to
`unsigned char`. -/
structure PixelStore where
  index : Nat
  channel : Channel
  value : Nat
deriving DecidableEq

/-- The state of core 0: the pixel buffer, the number of calls of `rand()` made so far, and
two ghost logs, oldest entry first: the events, and the stores made to `leds`. -/
structure Producer where
  leds : List LEDPixel
  randCalls : Nat
  events : List Event
  writes : List PixelStore
deriving DecidableEq

/-- Appends an event to the log. -/
def Producer.emit (p : Producer) (e : Event) : Producer :=
  { p with events := p.events ++ [e] }

/-- The state after one more call of `rand()`. -/
def Producer.randCalled (p : Producer) : Producer :=
  { p with randCalls := p.randCalls + 1 }

/-- The store `px.ch = v`. -/
def LEDPixel.setChannel (px : LEDPixel) (ch : Channel) (v : Nat) : LEDPixel :=
  match ch with
  | Channel.G => { px with G := v }
  | Channel.R => { px with R := v }
  | Channel.B => { px with B := v }

/-- The store `leds[i].ch = v` with an `int` index and an `int` value, which the assignment
converts to `unsigned char`; undefined when `i` is outside the array. -/
def Producer.storeChannel (p : Producer) (i : Int) (ch : Channel) (v : Int) :
    Except Producer Producer :=
  if 0 ≤ i ∧ i < (p.leds.length : Int) then
    match p.leds[i.toNat]? with
    | some px =>
      Except.ok { p with
        leds := p.leds.set i.toNat (px.setChannel ch (v % 256).toNat)
        writes := p.writes ++ [⟨i.toNat, ch, (v % 256).toNat⟩] }
    | none => Except.error p
  else Except.error p

/-- The stores of the loop of `clearLEDs`, in order: `leds[loop].G = 0; leds[loop].R = 0;
leds[loop].B = 0;` for `loop` from 0 to `LED_COUNT - 1`. -/
def clearLEDsWrites : List PixelStore :=
  ((List.range LED_COUNT).map
    (fun (loop : Nat) => [⟨loop, Channel.G, 0⟩, ⟨loop, Channel.R, 0⟩, ⟨loop, Channel.B, 0⟩])).flatten

/-- The function `clearLEDs()` with its two mutex calls; the loop between them is `clearLEDs`,
and its stores go to the log. -/
def clearLEDsCall (p : Producer) : Except Producer Producer :=
  let p1 := p.emit Event.mutexEnter
  match clearLEDs p1.leds with
  | none => Except.error p1
  | some leds =>
    Except.ok ({ p1 with leds := leds, writes := p1.writes ++ clearLEDsWrites }.emit
      Event.mutexExit)

/-! ### `rollingBit` -/

/-- The body of the `for` loop of `rollingBit` at the index `loop`:
`leds[loop].G = bit; leds[loop + 1].R = bit; leds[loop + 2].B = bit; leds[loop + 3].R = bit;
leds[loop + 3].B = bit;`. -/
def rollingBitStores (bit : Nat) (loop : Int) (p : Producer) : Except Producer Producer := do
  let p ← p.storeChannel loop Channel.G bit
  let p ← p.storeChannel (loop + 1) Channel.R bit
  let p ← p.storeChannel (loop + 2) Channel.B bit
  let p ← p.storeChannel (loop + 3) Channel.R bit
  p.storeChannel (loop + 3) Channel.B bit

/-- The loop `for (int loop = 0; loop < LED_COUNT; loop += 4)` of `rollingBit` with `n`
iterations left, the next one at the index `loop`. -/
def rollingBitFill (bit : Nat) : Nat → Int → Producer → Except Producer Producer
  | 0, _, p => Except.ok p
  | n + 1, loop, p => do
    let p ← rollingBitStores bit loop p
    rollingBitFill bit n (loop + 4) p

/-- The statements `bit <<= 1; if (!bit) bit = 0x01;` on the `uint8_t` variable `bit`. -/
def rollingBitNext (bit : Nat) : Nat :=
  let bit1 := (bit <<< 1) % 256
  if bit1 = 0 then 0x01 else bit1

/-- The loop `while (count--)` of `rollingBit` with `count` iterations left. -/
def rollingBitLoop : Nat → Nat → Producer → Except Producer Producer
  | 0, _, p => Except.ok p
  | count + 1, bit, p => do
    let p := p.emit Event.mutexEnter
    let p ← rollingBitFill bit ((LED_COUNT + 3) / 4) 0 p
    let p := p.emit Event.mutexExit
    let bit := rollingBitNext bit
    let p := p.emit (Event.sleep 1000)
    rollingBitLoop count bit p

/-- The function `rollingBit()`. -/
def rollingBit (rand : Nat → Nat) (p : Producer) : Except Producer Producer := do
  let count := LED_COUNT * (2 + rand p.randCalls % 2)
  let p := p.randCalled
  let bit := 0x1
  let p ← clearLEDsCall p
  let p ← rollingBitLoop count bit p
  clearLEDsCall p

/-! ### `cylon` -/

/-- The luminance `1 * (int)pow((double)(1 + 1.25), (double)loop)`: the integer part of
`2.25 ^ loop`, which is `9 ^ loop / 4 ^ loop` in integer division (1, 2, 5, 11 for the
indices 0..3 of the loop). -/
def cylonLuminance (loop : Nat) : Int := ((9 ^ loop / 4 ^ loop : Nat) : Int)

/-- The `switch (color)` of `cylon`, which stores `l` to `leds[i].G` in case 0, to
`leds[i].B` in case 1, to `leds[i].R` in case 2, and does nothing otherwise. -/
def cylonStore (color : Int) (i : Int) (l : Int) (p : Producer) : Except Producer Producer :=
  if color = 0 then p.storeChannel i Channel.G l
  else if color = 1 then p.storeChannel i Channel.B l
  else if color = 2 then p.storeChannel i Channel.R l
  else Except.ok p

/-- The guarded store of `cylon`: `if (i >= 0 && i < LED_COUNT) switch (color) ...`. -/
def cylonGuardedStore (color : Int) (i : Int) (l : Int) (p : Producer) :
    Except Producer Producer :=
  if i ≥ 0 ∧ i < (LED_COUNT : Int) then cylonStore color i l p else Except.ok p

/-- The body of the `for` loop of `cylon` at the index `loop`: the luminance, then the
guarded stores at `offset + loop` and at `offset + LED_COUNT - (loop + 1)`. -/
def cylonPixel (color offset : Int) (loop : Nat) (p : Producer) : Except Producer Producer := do
  let l := cylonLuminance loop
  let p ← cylonGuardedStore color (offset + loop) l p
  cylonGuardedStore color (offset + LED_COUNT - (loop + 1)) l p

/-- The loop `for (int loop = 0; loop < LED_COUNT / 2; loop++)` of `cylon` with `n`
iterations left, the next one at the index `loop`. -/
def cylonFill (color offset : Int) : Nat → Nat → Producer → Except Producer Producer
  | 0, _, p => Except.ok p
  | n + 1, loop, p => do
    let p ← cylonPixel color offset loop p
    cylonFill color offset n (loop + 1) p

/-- The state of `cylon` between two iterations of its outer loop. -/
structure CylonState where
  core : Producer
  offset : Int
  dir : Int
deriving DecidableEq

/-- One iteration of the loop `while (count--)` of `cylon`. -/
def cylonStep (color : Int) (s : CylonState) : Except Producer CylonState := do
  let p ← clearLEDsCall s.core
  let p := p.emit Event.mutexEnter
  let p ← cylonFill color s.offset (LED_COUNT / 2) 0 p
  let p := p.emit Event.mutexExit
  let offset := s.offset + s.dir
  let dir := if offset = LED_COUNT then -1 else s.dir
  let dir := if offset = -1 * LED_COUNT then 1 else dir
  let p := p.emit (Event.sleep 100)
  Except.ok { core := p, offset := offset, dir := dir }

/-- The loop `while (count--)` of `cylon` with `count` iterations left. -/
def cylonLoop (color : Int) : Nat → CylonState → Except Producer CylonState
  | 0, s => Except.ok s
  | count + 1, s => do
    let s ← cylonStep color s
    cylonLoop color count s

/-- The function `cylon()`. -/
def cylon (rand : Nat → Nat) (p : Producer) : Except Producer Producer := do
  let count := LED_COUNT * (10 + rand p.randCalls % 10)
  let p := p.randCalled
  let color : Int := rand p.randCalls % 3
  let p := p.randCalled
  let s ← cylonLoop color count { core := p, offset := 0, dir := 1 }
  clearLEDsCall s.core

/-! ### `randomizeColors` -/

/-- The statement `leds[loop].ch = rand() % level`: the call of `rand()`, then the remainder,
which is undefined when `level` is zero, then the store. -/
def randomizeChannel (rand : Nat → Nat) (level : Int) (loop : Nat) (ch : Channel)
    (p : Producer) : Except Producer Producer :=
  let r : Int := rand p.randCalls
  let p := p.randCalled
  if level = 0 then Except.error p else p.storeChannel loop ch (r % level)

/-- The body of the `for` loop of `randomizeColors` at the index `loop`: in case 0 of
`switch (rand() % 4)` a random level and the three channels in the order G, B, R. -/
def randomizePixel (rand : Nat → Nat) (loop : Nat) (p : Producer) : Except Producer Producer :=
  let choice := rand p.randCalls % 4
  let p := p.randCalled
  if choice = 0 then do
    let level : Int := rand p.randCalls % 64
    let p := p.randCalled
    let p ← randomizeChannel rand level loop Channel.G p
    let p ← randomizeChannel rand level loop Channel.B p
    randomizeChannel rand level loop Channel.R p
  else Except.ok p

/-- The loop `for (int loop = 0; loop < LED_COUNT; loop++)` of `randomizeColors` with `n`
iterations left, the next one at the index `loop`. -/
def randomizeFill (rand : Nat → Nat) : Nat → Nat → Producer → Except Producer Producer
  | 0, _, p => Except.ok p
  | n + 1, loop, p => do
    let p ← randomizePixel rand loop p
    randomizeFill rand n (loop + 1) p

/-- The loop `while (count--)` of `randomizeColors` with `count` iterations left. -/
def randomizeLoop (rand : Nat → Nat) : Nat → Producer → Except Producer Producer
  | 0, p => Except.ok p
  | count + 1, p => do
    let p ← clearLEDsCall p
    let p := p.emit Event.mutexEnter
    let p ← randomizeFill rand LED_COUNT 0 p
    let p := p.emit Event.mutexExit
    let p := p.emit (Event.sleep 600)
    randomizeLoop rand count p

/-- The function `randomizeColors()`. -/
def randomizeColors (rand : Nat → Nat) (p : Producer) : Except Producer Producer :=
  let count := LED_COUNT * (3 + rand p.randCalls % 5)
  let p := p.randCalled
  randomizeLoop rand count p

/-! ### `electricRain` -/

/-- The value of a channel after `if (c > 0) { fade = r % ((c / 4) + 1) + 1; c -= fade; }`,
`r` being the value that `rand()` returns: the difference is an `int`, and the assignment
converts it to `unsigned char`. -/
def fadeValue (c : Nat) (r : Nat) : Nat :=
  if c > 0 then
    let fade : Int := (r : Int) % (((c : Int) / 4) + 1) + 1
    (((c : Int) - fade) % 256).toNat
  else c

/-- The fade of one channel of `leds[loop]`: `rand()` is called only when the channel is
above zero. -/
def fadeChannel (rand : Nat → Nat) (loop : Nat) (ch : Channel) (p : Producer) :
    Except Producer Producer :=
  match p.leds[loop]? with
  | none => Except.error p
  | some px =>
    if px.channel ch > 0 then
      let r := rand p.randCalls
      let p := p.randCalled
      p.storeChannel loop ch (fadeValue (px.channel ch) r)
    else Except.ok p

/-- The body of the fade loop of `electricRain` at the index `loop`: the channels in the
order R, G, B. -/
def fadePixel (rand : Nat → Nat) (loop : Nat) (p : Producer) : Except Producer Producer := do
  let p ← fadeChannel rand loop Channel.R p
  let p ← fadeChannel rand loop Channel.G p
  fadeChannel rand loop Channel.B p

/-- The loop `for (int loop = 0; loop < LED_COUNT; loop++)` of the fade pass with `n`
iterations left, the next one at the index `loop`. -/
def fadeFill (rand : Nat → Nat) : Nat → Nat → Producer → Except Producer Producer
  | 0, _, p => Except.ok p
  | n + 1, loop, p => do
    let p ← fadePixel rand loop p
    fadeFill rand n (loop + 1) p

/-- The loop `while (droprandom--)` of `electricRain` with `droprandom` iterations left. -/
def fadeLoop (rand : Nat → Nat) : Nat → Producer → Except Producer Producer
  | 0, p => Except.ok p
  | droprandom + 1, p => do
    let p := p.emit Event.mutexEnter
    let p ← fadeFill rand LED_COUNT 0 p
    let p := p.emit Event.mutexExit
    let p := p.emit (Event.sleep 100)
    fadeLoop rand droprandom p

/-- The droplet of `electricRain`: a random pixel gets random `R`, `G` and `B` below 128. -/
def rainDrop (rand : Nat → Nat) (p : Producer) : Except Producer Producer := do
  let i : Int := rand p.randCalls % LED_COUNT
  let p := p.randCalled
  let r : Int := rand p.randCalls % 128
  let p ← p.randCalled.storeChannel i Channel.R r
  let g : Int := rand p.randCalls % 128
  let p ← p.randCalled.storeChannel i Channel.G g
  let b : Int := rand p.randCalls % 128
  p.randCalled.storeChannel i Channel.B b

/-- The loop `while (count--)` of `electricRain` with `count` iterations left. -/
def rainLoop (rand : Nat → Nat) : Nat → Producer → Except Producer Producer
  | 0, p => Except.ok p
  | count + 1, p => do
    let p := p.emit Event.mutexEnter
    let p ← rainDrop rand p
    let p := p.emit Event.mutexExit
    let droprandom := rand p.randCalls % 10 + 1
    let p := p.randCalled
    let p ← fadeLoop rand droprandom p
    rainLoop rand count p

/-- The function `electricRain()`. -/
def electricRain (rand : Nat → Nat) (p : Producer) : Except Producer Producer :=
  let count := LED_COUNT * (3 + rand p.randCalls % 5)
  let p := p.randCalled
  rainLoop rand count p

/-! ### The lock discipline -/

/-- The effect of one event on the question whether the routine holds the mutex; `none`
when the event breaks the discipline: taking the mutex or sleeping while it is held, or
releasing it while it is not held. -/
def lockStep (held : Bool) : Event → Option Bool
  | Event.mutexEnter => if held then none else some true
  | Event.mutexExit => if held then some false else none
  | Event.sleep _ => if held then none else some false

/-- Runs `lockStep` over a log of events, starting from `held`. -/
def lockCheck : List Event → Bool → Option Bool
  | [], held => some held
  | e :: events, held =>
    match lockStep held e with
    | none => none
    | some held1 => lockCheck events held1

/-- The outcome of a routine satisfies `okP` when the routine returns and `errP` when it
reaches undefined behaviour. -/
def Holds {α : Type} (okP : α → Prop) (errP : Producer → Prop) : Except Producer α → Prop
  | Except.ok a => okP a
  | Except.error p => errP p

/-- The routine is outside its critical sections: the log keeps the lock discipline and
leaves the mutex free, and the pixel buffer has its `LED_COUNT` entries. -/
def Outside (p : Producer) : Prop :=
  lockCheck p.events false = some false ∧ p.leds.length = LED_COUNT

/-- The routine is inside a critical section: the log keeps the lock discipline and leaves
the mutex held, and the pixel buffer has its `LED_COUNT` entries. -/
def Inside (p : Producer) : Prop :=
  lockCheck p.events false = some true ∧ p.leds.length = LED_COUNT

/-- The log keeps the lock discipline so far. -/
def Disciplined (p : Producer) : Prop :=
  ∃ held, lockCheck p.events false = some held

/-- The invariant of the outer loop of `cylon`: the offset stays between `-LED_COUNT` and
`LED_COUNT`, and at either end the direction points back. -/
def CylonInv (s : CylonState) : Prop :=
  Outside s.core ∧ -(LED_COUNT : Int) ≤ s.offset ∧ s.offset ≤ (LED_COUNT : Int) ∧
    (s.dir = 1 ∨ s.dir = -1) ∧ (s.offset = (LED_COUNT : Int) → s.dir = -1) ∧
    (s.offset = -(LED_COUNT : Int) → s.dir = 1)

/-- The stores of one pass of the `for` loop of `rollingBit` with the value `bit`, in order:
at `loop = 0` and at `loop = 4` the channels `leds[loop].G`, `leds[loop + 1].R`,
`leds[loop + 2].B`, `leds[loop + 3].R` and `leds[loop + 3].B`. -/
def rollingBitPattern (bit : Nat) : List PixelStore :=
  [⟨0, Channel.G, bit⟩, ⟨1, Channel.R, bit⟩, ⟨2, Channel.B, bit⟩, ⟨3, Channel.R, bit⟩,
    ⟨3, Channel.B, bit⟩, ⟨4, Channel.G, bit⟩, ⟨5, Channel.R, bit⟩, ⟨6, Channel.B, bit⟩,
    ⟨7, Channel.R, bit⟩, ⟨7, Channel.B, bit⟩]

/-- The pixel `after` is the pixel `before` faded: a channel that was 0 is 0, and a channel
that was above 0 is strictly smaller. -/
def LEDPixel.fadedFrom (after before : LEDPixel) : Prop :=
  ∀ ch : Channel, (before.channel ch = 0 → after.channel ch = 0) ∧
    (1 ≤ before.channel ch → after.channel ch < before.channel ch)

/-- The state of core 0 of the scenario: the scenario buffer, no call of `rand()` yet, empty
logs. -/
def scenarioProducer : Producer := ⟨scenarioLeds, 0, [], []⟩

/-- A sample sequence of `rand()` values. -/
def scenarioRand (n : Nat) : Nat := 7 * n + 3

/-! ## The encoder: bit-level lemmas -/

theorem and_0x80_ne_zero (c : Nat) : (c &&& 0x80 ≠ 0) ↔ c.testBit 7 = true := by
  have h128 : (0x80 : Nat) = 2 ^ 7 := by norm_num
  constructor
  · intro h
    by_contra hb
    apply h
    apply Nat.eq_of_testBit_eq
    intro i
    rw [Nat.testBit_and, h128, Nat.testBit_two_pow]
    by_cases hi : 7 = i
    · subst hi; simp [hb]
    · simp [hi]
  · intro h h0
    have := congrArg (fun x => Nat.testBit x 7) h0
    simp only [Nat.testBit_and, h128, Nat.testBit_two_pow, Nat.zero_testBit] at this
    simp [h] at this

theorem symbol_eq (c : Nat) :
    (if c &&& 0x80 ≠ 0 then T1_BYTE else T0_BYTE) = symbolOf (c.testBit 7) := by
  unfold symbolOf
  by_cases h : c.testBit 7 = true
  · rw [if_pos ((and_0x80_ne_zero c).mpr h), if_pos h]
  · rw [if_neg (fun hc => h ((and_0x80_ne_zero c).mp hc)), if_neg h]

theorem testBit_shiftByte (c i : Nat) :
    (shiftByte c).testBit i = (decide (i < 8) && decide (1 ≤ i) && c.testBit (i - 1)) := by
  unfold shiftByte
  have h256 : (256 : Nat) = 2 ^ 8 := by norm_num
  rw [h256, Nat.testBit_mod_two_pow, Nat.testBit_shiftLeft]
  simp [Bool.and_assoc]

theorem testBit_shiftByte_iterate (k : Nat) : ∀ (c i : Nat), i < 8 →
    (shiftByte^[k] c).testBit i = (decide (k ≤ i) && c.testBit (i - k)) := by
  induction k with
  | zero => intro c i _; simp
  | succ k ih =>
    intro c i hi
    rw [Function.iterate_succ_apply, ih _ _ hi, testBit_shiftByte]
    by_cases h1 : k + 1 ≤ i
    · have h2 : k ≤ i := by omega
      have h3 : i - k < 8 := by omega
      have h4 : 1 ≤ i - k := by omega
      have h5 : i - k - 1 = i - (k + 1) := by omega
      simp [h1, h2, h3, h4, h5]
    · by_cases h2 : k ≤ i
      · have h4 : ¬ (1 ≤ i - k) := by omega
        simp [h1, h2, h4]
      · simp [h1, h2]

theorem map_shift_eq_encodeByte (c : Nat) :
    (List.range 8).map (fun k => symbolOf ((shiftByte^[k] c).testBit 7)) = encodeByte c := by
  unfold encodeByte
  apply List.map_congr_left
  intro k hk
  have hk8 : k < 8 := List.mem_range.mp hk
  rw [testBit_shiftByte_iterate k c 7 (by norm_num)]
  have : k ≤ 7 := by omega
  simp [this]

theorem encodeByte_length (b : Nat) : (encodeByte b).length = 8 := by
  simp [encodeByte]

theorem encodeByte_getElem? (b k : Nat) (hk : k < 8) :
    (encodeByte b)[k]? = some (symbolOf (b.testBit (7 - k))) := by
  unfold encodeByte
  rw [List.getElem?_map, List.getElem?_range hk]
  rfl

/-! ## The encoder: what one call does to the buffer -/

theorem indexRun_succ (o : Int) (n : Nat) :
    indexRun o (n + 1) = o :: indexRun (o + 1) n := by
  unfold indexRun
  rw [List.range_succ_eq_map, List.map_cons, List.map_map]
  congr 1
  · simp
  · apply List.map_congr_left
    intro k _
    simp only [Function.comp_apply, Nat.succ_eq_add_one]
    push_cast
    ring

theorem symbols_succ (c n : Nat) :
    (List.range (n + 1)).map (fun k => symbolOf ((shiftByte^[k] c).testBit 7)) =
      symbolOf (c.testBit 7) ::
        (List.range n).map (fun k => symbolOf ((shiftByte^[k] (shiftByte c)).testBit 7)) := by
  rw [List.range_succ_eq_map, List.map_cons, List.map_map]
  rfl

theorem storeByte_append (pre post : List Nat) (old v : Nat) (log : List Int) :
    storeByte ⟨pre ++ old :: post, log⟩ (pre.length : Int) v =
      some ⟨pre ++ v :: post, log ++ [(pre.length : Int)]⟩ := by
  unfold storeByte
  have h : (0 : Int) ≤ (pre.length : Int) ∧
      (pre.length : Int) < ((pre ++ old :: post).length : Int) := by
    constructor
    · exact Int.natCast_nonneg _
    · simp only [List.length_append, List.length_cons]; omega
  simp only [h, and_self, if_true]
  simp

theorem colorByteLoop_frame (n : Nat) : ∀ (pre mid post : List Nat) (log : List Int) (c : Nat),
    mid.length = n →
    colorByteLoop n ⟨pre ++ mid ++ post, log⟩ (pre.length : Int) c =
      some (⟨pre ++ (List.range n).map (fun k => symbolOf ((shiftByte^[k] c).testBit 7)) ++ post,
          log ++ indexRun (pre.length : Int) n⟩,
        (pre.length : Int) + (n : Int)) := by
  induction n with
  | zero =>
    intro pre mid post log c hmid
    have : mid = [] := List.length_eq_zero.mp hmid
    subst this
    simp [colorByteLoop, indexRun]
  | succ n ih =>
    intro pre mid post log c hmid
    obtain ⟨old, mid1, rfl⟩ : ∃ a l, mid = a :: l := by
      cases mid with
      | nil => simp at hmid
      | cons a l => exact ⟨a, l, rfl⟩
    have hlen : mid1.length = n := by simpa using hmid
    have hstore := storeByte_append pre (mid1 ++ post) old (symbolOf (c.testBit 7)) log
    unfold colorByteLoop
    rw [symbol_eq]
    have e1 : pre ++ old :: mid1 ++ post = pre ++ old :: (mid1 ++ post) := by simp
    rw [e1, hstore]
    have e2 : pre ++ symbolOf (c.testBit 7) :: (mid1 ++ post) =
        (pre ++ [symbolOf (c.testBit 7)]) ++ mid1 ++ post := by simp
    have e3 : ((pre.length : Int) + 1) = ((pre ++ [symbolOf (c.testBit 7)]).length : Int) := by
      simp
    simp only []
    rw [e2, e3, ih _ _ _ _ _ hlen, indexRun_succ, symbols_succ]
    have e4 : ((pre ++ [symbolOf (c.testBit 7)]).length : Int) = (pre.length : Int) + 1 := by
      simp
    rw [e4]
    have e5 : (pre.length : Int) + 1 + (n : Int) = (pre.length : Int) + ((n + 1 : Nat) : Int) := by
      push_cast; ring
    rw [e5]
    simp

theorem colorByteToSPIBuffer_frame (pre mid post : List Nat) (log : List Int) (c : Nat)
    (hmid : mid.length = 8) :
    colorByteToSPIBuffer ⟨pre ++ mid ++ post, log⟩ (pre.length : Int) c =
      some (⟨pre ++ encodeByte c ++ post, log ++ indexRun (pre.length : Int) 8⟩,
        (pre.length : Int) + 8) := by
  unfold colorByteToSPIBuffer SPI_BITS_PER_CYCLE
  rw [colorByteLoop_frame 8 pre mid post log c hmid, map_shift_eq_encodeByte]
  rfl

/-- Every in-range call of `colorByteToSPIBuffer` succeeds; it replaces the eight bytes from
the offset by the symbols of the colour byte and returns the offset plus eight. -/
theorem colorByteToSPIBuffer_eq (buf : SpiBuffer) (o : Int) (b : Nat)
    (h0 : 0 ≤ o) (h1 : o + 8 ≤ (buf.bytes.length : Int)) :
    colorByteToSPIBuffer buf o b =
      some (⟨buf.bytes.take o.toNat ++ encodeByte b ++ buf.bytes.drop (o.toNat + 8),
          buf.stores ++ indexRun o 8⟩, o + 8) := by
  obtain ⟨bytes, log⟩ := buf
  obtain ⟨m, rfl⟩ := Int.eq_ofNat_of_zero_le h0
  have hm : m + 8 ≤ bytes.length := by
    simp only at h1; omega
  have hsplit : bytes = bytes.take m ++ (bytes.drop m).take 8 ++ bytes.drop (m + 8) := by
    rw [List.append_assoc, ← List.drop_drop, List.take_append_drop, List.take_append_drop]
  have hpre : (bytes.take m).length = m := by
    rw [List.length_take]; omega
  have hmid : ((bytes.drop m).take 8).length = 8 := by
    rw [List.length_take, List.length_drop]; omega
  have := colorByteToSPIBuffer_frame (bytes.take m) ((bytes.drop m).take 8)
    (bytes.drop (m + 8)) log b hmid
  rw [← hsplit, hpre] at this
  simpa using this

theorem take_drop_mid (pre mid post : List Nat) (n : Nat) (hn : pre.length = n) :
    ((pre ++ mid ++ post).drop n).take mid.length = mid := by
  subst hn
  rw [List.append_assoc, List.drop_left, List.take_left]

theorem decode_encodeByte (b : Nat) (hb : b < 256) : decodeByte (encodeByte b) = some b := by
  interval_cases b <;> rfl

/-- C2: for every colour byte `b`, buffer and offset `o` with `0 ≤ o` and `o + 8` at most the
buffer length, `colorByteToSPIBuffer` returns, and afterwards the byte at `o + k`, for each
`k` in `0..7`, is `T1_BYTE` if bit `7 - k` of `b` is set and `T0_BYTE` otherwise. -/
theorem colorByteToSPIBuffer_symbol_per_bit (b : Nat) (buf : SpiBuffer) (o : Int)
    (h0 : 0 ≤ o) (h1 : o + 8 ≤ (buf.bytes.length : Int)) :
    ∃ r, colorByteToSPIBuffer buf o b = some r ∧
      ∀ k : Nat, k < 8 →
        r.1.bytes[o.toNat + k]? = some (if b.testBit (7 - k) = true then T1_BYTE else T0_BYTE) := by
  refine ⟨_, colorByteToSPIBuffer_eq buf o b h0 h1, ?_⟩
  intro k hk
  have hlen : (buf.bytes.take o.toNat).length = o.toNat := by
    rw [List.length_take]; omega
  have h2 : o.toNat + k < (buf.bytes.take o.toNat ++ encodeByte b).length := by
    rw [List.length_append, hlen, encodeByte_length]; omega
  simp only
  rw [List.getElem?_append_left h2, List.getElem?_append_right (by omega), hlen,
    Nat.add_sub_cancel_left, encodeByte_getElem? b k hk]
  rfl

/-- The claim C2 at the colour byte `0xA5`, offset 1 of a ten-byte buffer. -/
theorem colorByteToSPIBuffer_symbol_per_bit_witness :
    ((0 : Int) ≤ 1 ∧ (1 : Int) + 8 ≤ ((⟨List.replicate 10 7, []⟩ : SpiBuffer).bytes.length : Int)) ∧
    ∃ r, colorByteToSPIBuffer ⟨List.replicate 10 7, []⟩ 1 0xA5 = some r ∧
      ∀ k : Nat, k < 8 →
        r.1.bytes[(1 : Int).toNat + k]? =
          some (if Nat.testBit 0xA5 (7 - k) = true then T1_BYTE else T0_BYTE) :=
  ⟨⟨by decide, by decide⟩,
    colorByteToSPIBuffer_symbol_per_bit 0xA5 ⟨List.replicate 10 7, []⟩ 1 (by decide) (by decide)⟩

/-- C3: for every colour byte `b` in `0..255`, decoding the eight symbols that
`colorByteToSPIBuffer` has written for `b` (a symbol equal to `T1_BYTE` read as 1, one equal
to `T0_BYTE` as 0, the first symbol as the most significant bit) gives back exactly `b`. -/
theorem colorByteToSPIBuffer_decode (b : Nat) (hb : b < 256) (buf : SpiBuffer) (o : Int)
    (h0 : 0 ≤ o) (h1 : o + 8 ≤ (buf.bytes.length : Int)) :
    ∃ r, colorByteToSPIBuffer buf o b = some r ∧
      decodeByte ((r.1.bytes.drop o.toNat).take 8) = some b := by
  refine ⟨_, colorByteToSPIBuffer_eq buf o b h0 h1, ?_⟩
  have hlen : (buf.bytes.take o.toNat).length = o.toNat := by
    rw [List.length_take]; omega
  have := take_drop_mid (buf.bytes.take o.toNat) (encodeByte b)
    (buf.bytes.drop (o.toNat + 8)) o.toNat hlen
  rw [encodeByte_length] at this
  simp only
  rw [this]
  exact decode_encodeByte b hb

/-- The claim C3 at the colour byte `0x5A`, offset 2 of a twelve-byte buffer. -/
theorem colorByteToSPIBuffer_decode_witness :
    ((0x5A : Nat) < 256 ∧ (0 : Int) ≤ 2 ∧
      (2 : Int) + 8 ≤ ((⟨List.replicate 12 9, []⟩ : SpiBuffer).bytes.length : Int)) ∧
    ∃ r, colorByteToSPIBuffer ⟨List.replicate 12 9, []⟩ 2 0x5A = some r ∧
      decodeByte ((r.1.bytes.drop (2 : Int).toNat).take 8) = some 0x5A :=
  ⟨⟨by decide, by decide, by decide⟩,
    colorByteToSPIBuffer_decode 0x5A (by decide) ⟨List.replicate 12 9, []⟩ 2
      (by decide) (by decide)⟩

/-- C7: for every offset `o` and byte `b` with the write in range, `colorByteToSPIBuffer`
returns `o + SPI_BITS_PER_CYCLE`, the buffer keeps its length and every byte outside the
positions `o..o+7` is unchanged; a second call chained at the returned offset therefore
leaves the two symbol groups back to back, without overlap or gap. -/
theorem colorByteToSPIBuffer_returns_next_offset (b : Nat) (buf : SpiBuffer) (o : Int)
    (h0 : 0 ≤ o) (h1 : o + 8 ≤ (buf.bytes.length : Int)) :
    ∃ buf1, colorByteToSPIBuffer buf o b = some (buf1, o + (SPI_BITS_PER_CYCLE : Int)) ∧
      buf1.bytes.length = buf.bytes.length ∧
      (∀ j : Nat, (j < o.toNat ∨ o.toNat + 8 ≤ j) → buf1.bytes[j]? = buf.bytes[j]?) ∧
      (∀ b2 : Nat, o + 16 ≤ (buf.bytes.length : Int) →
        ∃ buf2, colorByteToSPIBuffer buf1 (o + (SPI_BITS_PER_CYCLE : Int)) b2 =
            some (buf2, o + 2 * (SPI_BITS_PER_CYCLE : Int)) ∧
          (buf2.bytes.drop o.toNat).take 16 = encodeByte b ++ encodeByte b2) := by
  have hlen : (buf.bytes.take o.toNat).length = o.toNat := by
    rw [List.length_take]; omega
  have hS : (SPI_BITS_PER_CYCLE : Int) = 8 := rfl
  rw [hS]
  refine ⟨_, colorByteToSPIBuffer_eq buf o b h0 h1, ?_, ?_, ?_⟩
  · simp only [List.length_append, hlen, encodeByte_length, List.length_drop]
    omega
  · intro j hj
    simp only
    rcases hj with hj | hj
    · rw [List.append_assoc, List.getElem?_append_left (by omega), List.getElem?_take_of_lt hj]
    · rw [List.getElem?_append_right (by
        rw [List.length_append, hlen, encodeByte_length]; exact hj),
        List.length_append, hlen, encodeByte_length, List.getElem?_drop]
      congr 1
      omega
  · intro b2 h2
    have hpre : (buf.bytes.take o.toNat ++ encodeByte b).length = o.toNat + 8 := by
      rw [List.length_append, hlen, encodeByte_length]
    have hcast : ((buf.bytes.take o.toNat ++ encodeByte b).length : Int) = o + 8 := by
      rw [hpre]; push_cast; omega
    have hrest : buf.bytes.drop (o.toNat + 8) =
        (buf.bytes.drop (o.toNat + 8)).take 8 ++ buf.bytes.drop (o.toNat + 16) := by
      have hsplit := (List.take_append_drop 8 (buf.bytes.drop (o.toNat + 8))).symm
      rw [List.drop_drop] at hsplit
      exact hsplit
    have hmid : ((buf.bytes.drop (o.toNat + 8)).take 8).length = 8 := by
      rw [List.length_take, List.length_drop]; omega
    have hcall := colorByteToSPIBuffer_frame (buf.bytes.take o.toNat ++ encodeByte b)
      ((buf.bytes.drop (o.toNat + 8)).take 8) (buf.bytes.drop (o.toNat + 16))
      (buf.stores ++ indexRun o 8) b2 hmid
    rw [List.append_assoc _ ((buf.bytes.drop (o.toNat + 8)).take 8), ← hrest, hcast] at hcall
    have e8 : o + 8 + 8 = o + 2 * 8 := by ring
    rw [e8] at hcall
    refine ⟨_, hcall, ?_⟩
    · simp only
      have h16 := take_drop_mid (buf.bytes.take o.toNat) (encodeByte b ++ encodeByte b2)
        (buf.bytes.drop (o.toNat + 16)) o.toNat hlen
      rw [List.length_append, encodeByte_length, encodeByte_length] at h16
      rw [← h16]
      simp only [List.append_assoc]

/-- The claim C7 at the colour bytes `0x81` and `0x0F`, offset 3 of a twenty-byte buffer. -/
theorem colorByteToSPIBuffer_returns_next_offset_witness :
    ((0 : Int) ≤ 3 ∧ (3 : Int) + 8 ≤ ((⟨List.replicate 20 5, []⟩ : SpiBuffer).bytes.length : Int)) ∧
    ∃ buf1, colorByteToSPIBuffer ⟨List.replicate 20 5, []⟩ 3 0x81 =
        some (buf1, 3 + (SPI_BITS_PER_CYCLE : Int)) ∧
      buf1.bytes.length = (⟨List.replicate 20 5, []⟩ : SpiBuffer).bytes.length ∧
      (∀ j : Nat, (j < (3 : Int).toNat ∨ (3 : Int).toNat + 8 ≤ j) →
        buf1.bytes[j]? = (⟨List.replicate 20 5, []⟩ : SpiBuffer).bytes[j]?) ∧
      (∀ b2 : Nat, (3 : Int) + 16 ≤ ((⟨List.replicate 20 5, []⟩ : SpiBuffer).bytes.length : Int) →
        ∃ buf2, colorByteToSPIBuffer buf1 (3 + (SPI_BITS_PER_CYCLE : Int)) b2 =
            some (buf2, 3 + 2 * (SPI_BITS_PER_CYCLE : Int)) ∧
          (buf2.bytes.drop (3 : Int).toNat).take 16 = encodeByte 0x81 ++ encodeByte b2) :=
  ⟨⟨by decide, by decide⟩,
    colorByteToSPIBuffer_returns_next_offset 0x81 ⟨List.replicate 20 5, []⟩ 3
      (by decide) (by decide)⟩

/-! ## `displayTask`: the composed frame -/

theorem indexRun_add (o : Int) (m n : Nat) :
    indexRun o (m + n) = indexRun o m ++ indexRun (o + (m : Int)) n := by
  induction m generalizing o with
  | zero => simp [indexRun]
  | succ m ih =>
    have e : m + 1 + n = (m + n) + 1 := by omega
    rw [e, indexRun_succ, indexRun_succ, ih, List.cons_append]
    congr 2
    push_cast
    ring_nf

theorem encodePixel_length (px : LEDPixel) : (encodePixel px).length = 24 := by
  simp [encodePixel, encodeByte_length]

theorem pixelOffset_eq (loop : Nat) :
    (loop : Int) * (COLOR_BYTES : Int) * (SPI_BITS_PER_CYCLE : Int) = ((24 * loop : Nat) : Int) := by
  have h1 : (COLOR_BYTES : Int) = 3 := rfl
  have h2 : (SPI_BITS_PER_CYCLE : Int) = 8 := rfl
  rw [h1, h2]
  push_cast
  ring

/-- One pass of the loop body of `displayTask` replaces the 24 bytes of the pixel by its
symbols and leaves `bufferoffset` at the start of the next pixel. -/
theorem displayPixel_frame (leds : List LEDPixel) (loop : Nat) (px : LEDPixel)
    (hpx : leds[loop]? = some px) (pre mid post : List Nat) (log : List Int)
    (hpre : pre.length = 24 * loop) (hmid : mid.length = 24) :
    displayPixel leds loop ⟨pre ++ mid ++ post, log⟩ =
      some (⟨pre ++ encodePixel px ++ post, log ++ indexRun ((24 * loop : Nat) : Int) 24⟩,
        ((24 * (loop + 1) : Nat) : Int)) := by
  have hm : mid = mid.take 8 ++ ((mid.drop 8).take 8 ++ mid.drop 16) := by
    have h1 := (List.take_append_drop 8 (mid.drop 8)).symm
    rw [List.drop_drop] at h1
    rw [← h1, List.take_append_drop]
  have l1 : (mid.take 8).length = 8 := by rw [List.length_take]; omega
  have l2 : ((mid.drop 8).take 8).length = 8 := by
    rw [List.length_take, List.length_drop]; omega
  have l3 : (mid.drop 16).length = 8 := by rw [List.length_drop]; omega
  generalize mid.take 8 = m1 at hm l1
  generalize (mid.drop 8).take 8 = m2 at hm l2
  generalize mid.drop 16 = m3 at hm l3
  subst hm
  unfold displayPixel
  rw [hpx]
  simp only
  rw [pixelOffset_eq, ← hpre]
  have c1 := colorByteToSPIBuffer_frame pre m1 (m2 ++ m3 ++ post) log px.G l1
  have e1 : pre ++ (m1 ++ (m2 ++ m3)) ++ post = pre ++ m1 ++ (m2 ++ m3 ++ post) := by
    simp only [List.append_assoc]
  rw [e1, c1]
  simp only
  have c2 := colorByteToSPIBuffer_frame (pre ++ encodeByte px.G) m2 (m3 ++ post)
    (log ++ indexRun (pre.length : Int) 8) px.R l2
  have e2 : pre ++ encodeByte px.G ++ (m2 ++ m3 ++ post) =
      pre ++ encodeByte px.G ++ m2 ++ (m3 ++ post) := by
    simp only [List.append_assoc]
  have o2 : (pre.length : Int) + 8 = ((pre ++ encodeByte px.G).length : Int) := by
    rw [List.length_append, encodeByte_length]; push_cast; ring
  rw [e2, o2, c2]
  simp only
  have c3 := colorByteToSPIBuffer_frame (pre ++ encodeByte px.G ++ encodeByte px.R) m3 post
    (log ++ indexRun (pre.length : Int) 8 ++ indexRun ((pre ++ encodeByte px.G).length : Int) 8)
    px.B l3
  have o3 : ((pre ++ encodeByte px.G).length : Int) + 8 =
      ((pre ++ encodeByte px.G ++ encodeByte px.R).length : Int) := by
    rw [List.length_append _ (encodeByte px.R), encodeByte_length]; push_cast; ring
  have e3 : pre ++ encodeByte px.G ++ encodeByte px.R ++ (m3 ++ post) =
      pre ++ encodeByte px.G ++ encodeByte px.R ++ m3 ++ post := by
    simp only [List.append_assoc]
  rw [e3, o3, c3]
  have i24 : indexRun (pre.length : Int) 24 =
      indexRun (pre.length : Int) 8 ++ indexRun ((pre ++ encodeByte px.G).length : Int) 8 ++
        indexRun ((pre ++ encodeByte px.G ++ encodeByte px.R).length : Int) 8 := by
    have e24 : 24 = 8 + (8 + 8) := rfl
    rw [e24, indexRun_add, indexRun_add, ← o3, ← o2, List.append_assoc]
    congr 3
  rw [i24]
  simp only [encodePixel, List.append_assoc, List.length_append, encodeByte_length, hpre]
  congr 2

theorem encodeLeds_cons (px : LEDPixel) (leds : List LEDPixel) :
    encodeLeds (px :: leds) = encodePixel px ++ encodeLeds leds := by
  simp [encodeLeds]

theorem encodeLeds_length (leds : List LEDPixel) : (encodeLeds leds).length = 24 * leds.length := by
  induction leds with
  | nil => rfl
  | cons px leds ih =>
    rw [encodeLeds_cons, List.length_append, encodePixel_length, ih, List.length_cons]
    omega

theorem drop_eq_cons_of_getElem? (leds : List LEDPixel) (loop : Nat) (px : LEDPixel)
    (hpx : leds[loop]? = some px) : leds.drop loop = px :: leds.drop (loop + 1) := by
  obtain ⟨h, rfl⟩ := List.getElem?_eq_some_iff.mp hpx
  exact List.drop_eq_getElem_cons h

/-- The encoding loop of `displayTask`, started at the pixel `loop` with `n` iterations left,
replaces the bytes of these `n` pixels by their symbols. -/
theorem displayLoop_frame (leds : List LEDPixel) (n : Nat) :
    ∀ (loop : Nat) (done rest : List Nat) (log : List Int) (off : Int),
    done.length = 24 * loop → 24 * n ≤ rest.length → loop + n ≤ leds.length →
    displayLoop leds n loop (⟨done ++ rest, log⟩, off) =
      some (⟨done ++ encodeLeds ((leds.drop loop).take n) ++ rest.drop (24 * n),
          log ++ indexRun ((24 * loop : Nat) : Int) (24 * n)⟩,
        if n = 0 then off else ((24 * (loop + n) : Nat) : Int)) := by
  induction n with
  | zero =>
    intro loop done rest log off _ _ _
    simp [displayLoop, encodeLeds, indexRun]
  | succ n ih =>
    intro loop done rest log off hdone hrest hleds
    have hlt : loop < leds.length := by omega
    obtain ⟨px, hpx⟩ : ∃ px, leds[loop]? = some px := ⟨leds[loop], List.getElem?_eq_getElem hlt⟩
    have hsplit : done ++ rest = done ++ rest.take 24 ++ rest.drop 24 := by
      rw [List.append_assoc, List.take_append_drop]
    have hmid : (rest.take 24).length = 24 := by rw [List.length_take]; omega
    unfold displayLoop
    simp only
    rw [hsplit, displayPixel_frame leds loop px hpx done (rest.take 24) (rest.drop 24) log
      hdone hmid]
    simp only
    have hdone1 : (done ++ encodePixel px).length = 24 * (loop + 1) := by
      rw [List.length_append, encodePixel_length, hdone]; omega
    have hrest1 : 24 * n ≤ (rest.drop 24).length := by rw [List.length_drop]; omega
    rw [ih (loop + 1) (done ++ encodePixel px) (rest.drop 24) _ _ hdone1 hrest1 (by omega)]
    rw [drop_eq_cons_of_getElem? leds loop px hpx, List.take_succ_cons, encodeLeds_cons,
      List.drop_drop]
    have e24 : 24 * (n + 1) = 24 + 24 * n := by omega
    have ecast : (((24 * loop : Nat) : Int) + ((24 : Nat) : Int)) = ((24 * (loop + 1) : Nat) : Int) := by
      push_cast; ring
    rw [e24, indexRun_add, ecast]
    have eoff : (if n = 0 then ((24 * (loop + 1) : Nat) : Int) else ((24 * (loop + 1 + n) : Nat) : Int)) =
        ((24 * (loop + (n + 1)) : Nat) : Int) := by
      split
      · next h => subst h; rfl
      · congr 2; omega
    rw [eoff]
    simp [List.append_assoc, Nat.add_comm]

/-- The composing part of a cycle of `displayTask`: whatever the locals held before, the
buffer ends as the symbols of all pixels followed by `RESETBYTES` zero bytes, the stores
went to the indices `0 .. SPI_BITS_PER_CYCLE * LED_BYTES - 1` in order, and `bufferoffset`
ends at `SPI_BITS_PER_CYCLE * LED_BYTES`. -/
theorem displayCompose_eq (leds : List LEDPixel) (st : SpiBuffer × Int)
    (hleds : leds.length = LED_COUNT) (hbuf : st.1.bytes.length = SPIBYTES) :
    displayCompose leds st =
      some (⟨encodeLeds leds ++ List.replicate RESETBYTES 0,
          st.1.stores ++ indexRun 0 (SPI_BITS_PER_CYCLE * LED_BYTES)⟩,
        ((SPI_BITS_PER_CYCLE * LED_BYTES : Nat) : Int)) := by
  obtain ⟨⟨bytes, log⟩, off⟩ := st
  simp only at hbuf
  have h242 : SPIBYTES = 242 := rfl
  have h8 : LED_COUNT = 8 := rfl
  have h192 : SPI_BITS_PER_CYCLE * LED_BYTES = 192 := rfl
  have h50 : RESETBYTES = 50 := rfl
  unfold displayCompose memset
  simp only [hbuf, le_refl, if_true]
  have hdrop : bytes.drop SPIBYTES = [] := List.drop_eq_nil_of_le (by omega)
  rw [hdrop, List.append_nil, h8, h242]
  have := displayLoop_frame leds 8 0 [] (List.replicate 242 0) log off rfl
    (by rw [List.length_replicate]; omega) (by omega)
  rw [List.nil_append] at this
  rw [this, h192, h50]
  have htake : (leds.drop 0).take 8 = leds := by
    rw [List.drop_zero]; exact List.take_of_length_le (by omega)
  rw [htake]
  simp

/-- The payload of a cycle of `displayTask`: the symbols of all pixels followed by
`RESETBYTES` zero bytes. -/
theorem displayPayload_eq (leds : List LEDPixel) (st : SpiBuffer × Int)
    (hleds : leds.length = LED_COUNT) (hbuf : st.1.bytes.length = SPIBYTES) :
    displayPayload leds st = some (encodeLeds leds ++ List.replicate RESETBYTES 0) := by
  unfold displayPayload
  rw [displayCompose_eq leds st hleds hbuf]
  have hlen : (encodeLeds leds ++ List.replicate RESETBYTES 0).length = SPIBYTES := by
    rw [List.length_append, encodeLeds_length, hleds, List.length_replicate]
    rfl
  simp only [hlen, le_refl, if_true]
  rw [← hlen, List.take_length]

set_option maxRecDepth 100000 in
/-- C1, refuted as stated: at the scenario buffer (pixel 0 is `(G=1, R=2, B=4)`, the others
are zero) the payload is not `RESETBYTES` zero bytes followed by the pixel symbols; its byte 0
is the symbol `T0_BYTE`, not `0x00`, and its last byte is `0x00`. -/
theorem displayPayload_reset_first_counterexample :
    displayPayload scenarioLeds (⟨List.replicate SPIBYTES 0, []⟩, 0) ≠
        some (List.replicate RESETBYTES 0 ++ encodeLeds scenarioLeds) ∧
      ∃ p, displayPayload scenarioLeds (⟨List.replicate SPIBYTES 0, []⟩, 0) = some p ∧
        p[0]? = some 0xC0 ∧ p[SPIBYTES - 1]? = some 0 := by
  decide

theorem replicate_length_SPIBYTES (v : Nat) : (List.replicate 242 v).length = SPIBYTES :=
  List.length_replicate 242 v

theorem scenarioLeds_length : scenarioLeds.length = LED_COUNT := rfl

set_option maxRecDepth 100000 in
theorem encodeLeds_scenario :
    encodeLeds scenarioLeds =
      [T0_BYTE, T0_BYTE, T0_BYTE, T0_BYTE, T0_BYTE, T0_BYTE, T0_BYTE, T1_BYTE] ++
      [T0_BYTE, T0_BYTE, T0_BYTE, T0_BYTE, T0_BYTE, T0_BYTE, T1_BYTE, T0_BYTE] ++
      [T0_BYTE, T0_BYTE, T0_BYTE, T0_BYTE, T0_BYTE, T1_BYTE, T0_BYTE, T0_BYTE] ++
      List.replicate 168 T0_BYTE := by
  decide

/-- C1, amended: for every content of the pixel buffer `leds` and whatever the task's locals
held before, the payload of one cycle of `displayTask` is, for each pixel in index order, the
8 symbols of its G channel, then of its R channel, then of its B channel, followed by
`RESETBYTES` (50) zero bytes.  In the scenario (pixel 0 is `(G=1, R=2, B=4)`, the others are
zero) bytes 0..23 are the symbols of `00000001 00000010 00000100`, bytes 24..191 are
`T0_BYTE` and bytes 192..241 are `0x00`. -/
theorem displayPayload_pixels_then_reset (leds : List LEDPixel) (st : SpiBuffer × Int)
    (hleds : leds.length = LED_COUNT) (hbuf : st.1.bytes.length = SPIBYTES) :
    displayPayload leds st =
        some ((leds.map (fun px => encodeByte px.G ++ encodeByte px.R ++ encodeByte px.B)).flatten
          ++ List.replicate RESETBYTES 0) ∧
      displayPayload scenarioLeds st =
        some ([T0_BYTE, T0_BYTE, T0_BYTE, T0_BYTE, T0_BYTE, T0_BYTE, T0_BYTE, T1_BYTE] ++
          [T0_BYTE, T0_BYTE, T0_BYTE, T0_BYTE, T0_BYTE, T0_BYTE, T1_BYTE, T0_BYTE] ++
          [T0_BYTE, T0_BYTE, T0_BYTE, T0_BYTE, T0_BYTE, T1_BYTE, T0_BYTE, T0_BYTE] ++
          List.replicate 168 T0_BYTE ++ List.replicate RESETBYTES 0) := by
  constructor
  · exact displayPayload_eq leds st hleds hbuf
  · rw [displayPayload_eq scenarioLeds st rfl hbuf, encodeLeds_scenario]

/-- The claim C1, amended, at the scenario buffer and a payload buffer that held `0xFF`. -/
theorem displayPayload_pixels_then_reset_witness :
    (scenarioLeds.length = LED_COUNT ∧
      ((⟨List.replicate 242 0xFF, []⟩, 7) : SpiBuffer × Int).1.bytes.length = SPIBYTES) ∧
    (displayPayload scenarioLeds (⟨List.replicate 242 0xFF, []⟩, 7) =
        some ((scenarioLeds.map
            (fun px => encodeByte px.G ++ encodeByte px.R ++ encodeByte px.B)).flatten
          ++ List.replicate RESETBYTES 0) ∧
      displayPayload scenarioLeds (⟨List.replicate 242 0xFF, []⟩, 7) =
        some ([T0_BYTE, T0_BYTE, T0_BYTE, T0_BYTE, T0_BYTE, T0_BYTE, T0_BYTE, T1_BYTE] ++
          [T0_BYTE, T0_BYTE, T0_BYTE, T0_BYTE, T0_BYTE, T0_BYTE, T1_BYTE, T0_BYTE] ++
          [T0_BYTE, T0_BYTE, T0_BYTE, T0_BYTE, T0_BYTE, T1_BYTE, T0_BYTE, T0_BYTE] ++
          List.replicate 168 T0_BYTE ++ List.replicate RESETBYTES 0)) :=
  ⟨⟨scenarioLeds_length, replicate_length_SPIBYTES 0xFF⟩,
    displayPayload_pixels_then_reset scenarioLeds (⟨List.replicate 242 0xFF, []⟩, 7)
      scenarioLeds_length (replicate_length_SPIBYTES 0xFF)⟩

/-- C4, refuted as stated: `SPIBYTES` is 242, while `P + N * 3 * 8 * S` with `P = RESETBYTES`,
`N = LED_COUNT` and `S = SPI_BITS_PER_CYCLE` is 1586; the payload sent at the scenario buffer
has 242 bytes. -/
theorem spibytes_formula_counterexample :
    SPIBYTES ≠ RESETBYTES + LED_COUNT * 3 * 8 * SPI_BITS_PER_CYCLE ∧
      ∃ p, displayPayload scenarioLeds (⟨List.replicate SPIBYTES 0, []⟩, 0) = some p ∧
        p.length = 242 ∧ RESETBYTES + LED_COUNT * 3 * 8 * SPI_BITS_PER_CYCLE = 1586 := by
  refine ⟨by decide, _, displayPayload_eq scenarioLeds _ scenarioLeds_length
    (List.length_replicate SPIBYTES 0), ?_, rfl⟩
  rw [List.length_append, encodeLeds_length, List.length_replicate]
  rfl

/-- C4, amended: the payload that `displayTask` sends each cycle has exactly `SPIBYTES` bytes,
and `SPIBYTES = P + N * 3 * S = 242`, where `N = LED_COUNT` (8) is the pixel count,
`S = SPI_BITS_PER_CYCLE` (8) is the number of symbols per colour byte (one byte-sized symbol
for each of its 8 bits) and `P = RESETBYTES` (50). -/
theorem displayPayload_length (leds : List LEDPixel) (st : SpiBuffer × Int)
    (hleds : leds.length = LED_COUNT) (hbuf : st.1.bytes.length = SPIBYTES) :
    ∃ p, displayPayload leds st = some p ∧ p.length = SPIBYTES ∧
      SPIBYTES = RESETBYTES + LED_COUNT * 3 * SPI_BITS_PER_CYCLE ∧ SPIBYTES = 242 := by
  refine ⟨_, displayPayload_eq leds st hleds hbuf, ?_, rfl, rfl⟩
  rw [List.length_append, encodeLeds_length, hleds, List.length_replicate]
  rfl

/-- The claim C4, amended, at the scenario buffer and a zeroed payload buffer. -/
theorem displayPayload_length_witness :
    (scenarioLeds.length = LED_COUNT ∧
      ((⟨List.replicate 242 0, []⟩, 0) : SpiBuffer × Int).1.bytes.length = SPIBYTES) ∧
    ∃ p, displayPayload scenarioLeds (⟨List.replicate 242 0, []⟩, 0) = some p ∧
      p.length = SPIBYTES ∧
      SPIBYTES = RESETBYTES + LED_COUNT * 3 * SPI_BITS_PER_CYCLE ∧ SPIBYTES = 242 :=
  ⟨⟨scenarioLeds_length, replicate_length_SPIBYTES 0⟩,
    displayPayload_length scenarioLeds (⟨List.replicate 242 0, []⟩, 0)
      scenarioLeds_length (replicate_length_SPIBYTES 0)⟩

theorem encodeLeds_append (l1 l2 : List LEDPixel) :
    encodeLeds (l1 ++ l2) = encodeLeds l1 ++ encodeLeds l2 := by
  simp [encodeLeds]

theorem encodeLeds_split (leds : List LEDPixel) (i : Nat) (px : LEDPixel)
    (hpx : leds[i]? = some px) :
    encodeLeds leds =
      encodeLeds (leds.take i) ++ encodePixel px ++ encodeLeds (leds.drop (i + 1)) := by
  have h := (List.take_append_drop i leds).symm
  rw [drop_eq_cons_of_getElem? leds i px hpx] at h
  have h2 : encodeLeds leds = encodeLeds (leds.take i ++ px :: leds.drop (i + 1)) :=
    congrArg encodeLeds h
  rw [h2, encodeLeds_append, encodeLeds_cons, List.append_assoc]

/-- C6: in the payload composed by one `displayTask` cycle, for every pixel index
`i < LED_COUNT` the 24 symbols of pixel `i` are contiguous, at the positions
`24 * i .. 24 * i + 23`, and are the encoding of its G channel, then its R channel, then its
B channel; and the offset that the B-channel encoding of pixel `i` returns is the offset
computed for pixel `i + 1`, so the symbols of pixel `i + 1` start right after those of
pixel `i`. -/
theorem displayPayload_pixel_contiguous (leds : List LEDPixel) (st : SpiBuffer × Int)
    (hleds : leds.length = LED_COUNT) (hbuf : st.1.bytes.length = SPIBYTES)
    (i : Nat) (px : LEDPixel) (hpx : leds[i]? = some px) :
    (∃ p, displayPayload leds st = some p ∧
      (p.drop (COLOR_BYTES * SPI_BITS_PER_CYCLE * i)).take (COLOR_BYTES * SPI_BITS_PER_CYCLE) =
        encodeByte px.G ++ encodeByte px.R ++ encodeByte px.B) ∧
    (∀ buf : SpiBuffer, buf.bytes.length = SPIBYTES →
      ∃ buf1, displayPixel leds i buf =
        some (buf1, ((i + 1 : Nat) : Int) * (COLOR_BYTES : Int) * (SPI_BITS_PER_CYCLE : Int))) := by
  have hi : i < LED_COUNT := by
    rw [← hleds]; exact (List.getElem?_eq_some_iff.mp hpx).1
  have h8 : LED_COUNT = 8 := rfl
  have h242 : SPIBYTES = 242 := rfl
  have h24 : COLOR_BYTES * SPI_BITS_PER_CYCLE = 24 := rfl
  constructor
  · refine ⟨_, displayPayload_eq leds st hleds hbuf, ?_⟩
    have hlen : (encodeLeds (leds.take i)).length = 24 * i := by
      rw [encodeLeds_length, List.length_take]
      congr 1
      omega
    have := take_drop_mid (encodeLeds (leds.take i)) (encodePixel px)
      (encodeLeds (leds.drop (i + 1)) ++ List.replicate RESETBYTES 0) (24 * i) hlen
    rw [encodePixel_length] at this
    rw [h24, encodeLeds_split leds i px hpx, List.append_assoc _ _ (List.replicate RESETBYTES 0),
      this]
    rfl
  · intro buf hb
    obtain ⟨bytes, log⟩ := buf
    simp only at hb
    have hsplit : bytes = bytes.take (24 * i) ++ (bytes.drop (24 * i)).take 24 ++
        bytes.drop (24 * i + 24) := by
      have h1 := (List.take_append_drop 24 (bytes.drop (24 * i))).symm
      rw [List.drop_drop] at h1
      have h2 := (List.take_append_drop (24 * i) bytes).symm
      rw [h1] at h2
      rw [List.append_assoc]
      exact h2
    have hpre : (bytes.take (24 * i)).length = 24 * i := by
      rw [List.length_take]; omega
    have hmid : ((bytes.drop (24 * i)).take 24).length = 24 := by
      rw [List.length_take, List.length_drop]; omega
    have := displayPixel_frame leds i px hpx _ _ (bytes.drop (24 * i + 24)) log hpre hmid
    rw [← hsplit, ← pixelOffset_eq (i + 1)] at this
    exact ⟨_, this⟩

/-- The claim C6 at pixel 0 of the scenario buffer. -/
theorem displayPayload_pixel_contiguous_witness :
    (scenarioLeds.length = LED_COUNT ∧
      ((⟨List.replicate 242 0xFF, []⟩, 7) : SpiBuffer × Int).1.bytes.length = SPIBYTES ∧
      scenarioLeds[0]? = some ⟨1, 2, 4⟩) ∧
    ((∃ p, displayPayload scenarioLeds (⟨List.replicate 242 0xFF, []⟩, 7) = some p ∧
      (p.drop (COLOR_BYTES * SPI_BITS_PER_CYCLE * 0)).take (COLOR_BYTES * SPI_BITS_PER_CYCLE) =
        encodeByte 1 ++ encodeByte 2 ++ encodeByte 4) ∧
    (∀ buf : SpiBuffer, buf.bytes.length = SPIBYTES →
      ∃ buf1, displayPixel scenarioLeds 0 buf =
        some (buf1, ((0 + 1 : Nat) : Int) * (COLOR_BYTES : Int) * (SPI_BITS_PER_CYCLE : Int)))) :=
  ⟨⟨scenarioLeds_length, replicate_length_SPIBYTES 0xFF, rfl⟩,
    displayPayload_pixel_contiguous scenarioLeds (⟨List.replicate 242 0xFF, []⟩, 7)
      scenarioLeds_length (replicate_length_SPIBYTES 0xFF) 0 ⟨1, 2, 4⟩ rfl⟩

theorem mem_indexRun (o i : Int) (n : Nat) :
    i ∈ indexRun o n ↔ o ≤ i ∧ i < o + (n : Int) := by
  unfold indexRun
  rw [List.mem_map]
  constructor
  · rintro ⟨k, hk, rfl⟩
    have := List.mem_range.mp hk
    omega
  · rintro ⟨h1, h2⟩
    refine ⟨(i - o).toNat, List.mem_range.mpr (by omega), by omega⟩

theorem unwritten_count :
    ((List.range SPIBYTES).filter
      (fun (j : Nat) => decide ((j : Int) ∉
        ([] : List Int) ++ indexRun 0 (SPI_BITS_PER_CYCLE * LED_BYTES)))).length =
      RESETBYTES := by
  have hcongr : (List.range SPIBYTES).filter
      (fun (j : Nat) => decide ((j : Int) ∉
        ([] : List Int) ++ indexRun 0 (SPI_BITS_PER_CYCLE * LED_BYTES))) =
      (List.range SPIBYTES).filter (fun j => decide (SPI_BITS_PER_CYCLE * LED_BYTES ≤ j)) := by
    apply List.filter_congr
    intro j _
    apply decide_eq_decide.mpr
    rw [List.nil_append, mem_indexRun]
    constructor
    · intro h
      by_contra hlt
      exact h ⟨Int.natCast_nonneg _, by omega⟩
    · intro h hmem
      omega
  rw [hcongr]
  decide

/-- C8: the payload composed in a `displayTask` cycle does not depend on what the payload
buffer (or the local `bufferoffset`) held before the cycle: for any two prior contents and
the same pixel buffer the two payloads are equal; and exactly `RESETBYTES` positions of the
payload are not stored to by the encoder during the cycle, each holding 0. -/
theorem displayPayload_fresh (leds : List LEDPixel) (bytes1 bytes2 : List Nat) (off1 off2 : Int)
    (hleds : leds.length = LED_COUNT)
    (h1 : bytes1.length = SPIBYTES) (h2 : bytes2.length = SPIBYTES) :
    (∃ p, displayPayload leds (⟨bytes1, []⟩, off1) = some p ∧
      displayPayload leds (⟨bytes2, []⟩, off2) = some p) ∧
    ∃ r, displayCompose leds (⟨bytes1, []⟩, off1) = some r ∧
      ((List.range SPIBYTES).filter (fun (j : Nat) => decide ((j : Int) ∉ r.1.stores))).length =
        RESETBYTES ∧
      ∀ j : Nat, j < SPIBYTES → (j : Int) ∉ r.1.stores → r.1.bytes[j]? = some 0 := by
  constructor
  · exact ⟨_, displayPayload_eq leds (⟨bytes1, []⟩, off1) hleds h1,
      displayPayload_eq leds (⟨bytes2, []⟩, off2) hleds h2⟩
  · refine ⟨_, displayCompose_eq leds (⟨bytes1, []⟩, off1) hleds h1, unwritten_count, ?_⟩
    intro j hj hnot
    simp only [List.nil_append] at hnot
    rw [mem_indexRun] at hnot
    have h192 : SPI_BITS_PER_CYCLE * LED_BYTES = 192 := rfl
    have h242 : SPIBYTES = 242 := rfl
    have h50 : RESETBYTES = 50 := rfl
    have h8 : LED_COUNT = 8 := rfl
    rw [h192] at hnot
    have hge : 192 ≤ j := by omega
    have hlen : (encodeLeds leds).length = 192 := by
      rw [encodeLeds_length, hleds, h8]
    simp only
    rw [List.getElem?_append_right (by omega), hlen, h50, List.getElem?_replicate]
    have : j - 192 < 50 := by omega
    simp [this]

/-- The claim C8 at the scenario buffer, for a payload buffer that held `0xFF` and one that
held `0x00`. -/
theorem displayPayload_fresh_witness :
    (scenarioLeds.length = LED_COUNT ∧ (List.replicate 242 0xFF).length = SPIBYTES ∧
      (List.replicate 242 0).length = SPIBYTES) ∧
    ((∃ p, displayPayload scenarioLeds (⟨List.replicate 242 0xFF, []⟩, 192) = some p ∧
      displayPayload scenarioLeds (⟨List.replicate 242 0, []⟩, 0) = some p) ∧
    ∃ r, displayCompose scenarioLeds (⟨List.replicate 242 0xFF, []⟩, 192) = some r ∧
      ((List.range SPIBYTES).filter (fun (j : Nat) => decide ((j : Int) ∉ r.1.stores))).length =
        RESETBYTES ∧
      ∀ j : Nat, j < SPIBYTES → (j : Int) ∉ r.1.stores → r.1.bytes[j]? = some 0) :=
  ⟨⟨scenarioLeds_length, replicate_length_SPIBYTES 0xFF, replicate_length_SPIBYTES 0⟩,
    displayPayload_fresh scenarioLeds (List.replicate 242 0xFF) (List.replicate 242 0) 192 0
      scenarioLeds_length (replicate_length_SPIBYTES 0xFF) (replicate_length_SPIBYTES 0)⟩

/-! ## The pixel buffer: `clearLEDs` and `setLEDColors` -/

theorem clearLoop_frame (n : Nat) : ∀ (loop : Nat) (done rest : List LEDPixel),
    done.length = loop → rest.length = n →
    clearLoop n loop (done ++ rest) = some (done ++ List.replicate n ⟨0, 0, 0⟩) := by
  induction n with
  | zero =>
    intro loop done rest _ hrest
    have : rest = [] := List.length_eq_zero.mp hrest
    subst this
    simp [clearLoop]
  | succ n ih =>
    intro loop done rest hdone hrest
    obtain ⟨px, rest1, rfl⟩ : ∃ a l, rest = a :: l := by
      cases rest with
      | nil => simp at hrest
      | cons a l => exact ⟨a, l, rfl⟩
    have hlen : rest1.length = n := by simpa using hrest
    subst hdone
    have hget : (done ++ px :: rest1)[done.length]? = some px := by
      rw [List.getElem?_append_right (le_refl _)]
      simp
    have hset : (done ++ px :: rest1).set done.length ⟨0, 0, 0⟩ =
        (done ++ [⟨0, 0, 0⟩]) ++ rest1 := by
      simp
    unfold clearLoop clearPixel
    rw [hget]
    simp only
    rw [hset, ih (done.length + 1) (done ++ [(⟨0, 0, 0⟩ : LEDPixel)]) rest1 (by simp) hlen]
    simp [List.replicate_succ]

/-- C5: for every prior state of the pixel buffer, `clearLEDs()` returns and afterwards every
pixel at index `0..LED_COUNT-1` has `G = 0`, `R = 0` and `B = 0`. -/
theorem clearLEDs_all_zero (leds : List LEDPixel) (hleds : leds.length = LED_COUNT) :
    ∃ leds1, clearLEDs leds = some leds1 ∧ leds1.length = LED_COUNT ∧
      ∀ i : Nat, i < LED_COUNT →
        ∃ px, leds1[i]? = some px ∧ px.G = 0 ∧ px.R = 0 ∧ px.B = 0 := by
  have h := clearLoop_frame LED_COUNT 0 [] leds rfl hleds
  rw [List.nil_append, List.nil_append] at h
  refine ⟨_, h, List.length_replicate _ _, ?_⟩
  intro i hi
  refine ⟨⟨0, 0, 0⟩, ?_, rfl, rfl, rfl⟩
  rw [List.getElem?_replicate]
  simp [hi]

/-- The claim C5 at the scenario buffer. -/
theorem clearLEDs_all_zero_witness :
    scenarioLeds.length = LED_COUNT ∧
    ∃ leds1, clearLEDs scenarioLeds = some leds1 ∧ leds1.length = LED_COUNT ∧
      ∀ i : Nat, i < LED_COUNT →
        ∃ px, leds1[i]? = some px ∧ px.G = 0 ∧ px.R = 0 ∧ px.B = 0 :=
  ⟨scenarioLeds_length, clearLEDs_all_zero scenarioLeds scenarioLeds_length⟩

/-- C10: for every valid pixel index `i` in `0..LED_COUNT-1` and every colour `(G, R, B)`,
`setLEDColors(i, colors)` followed by a read of the buffer returns exactly the written
channels at pixel `i`. -/
theorem setLEDColors_read_back (leds : List LEDPixel) (hleds : leds.length = LED_COUNT)
    (i : Nat) (hi : i < LED_COUNT) (colors : LEDPixel) :
    (setLEDColors leds (i : Int) colors)[i]? = some colors := by
  unfold setLEDColors
  have h : (0 : Int) ≤ (i : Int) ∧ (i : Int) < (LED_COUNT : Int) :=
    ⟨Int.natCast_nonneg _, by exact_mod_cast hi⟩
  rw [if_pos h, Int.toNat_ofNat, List.getElem?_set_self (by omega)]

/-- The claim C10 at pixel 3 of the scenario buffer and the colour `(G=10, R=20, B=255)`. -/
theorem setLEDColors_read_back_witness :
    (scenarioLeds.length = LED_COUNT ∧ 3 < LED_COUNT) ∧
    (setLEDColors scenarioLeds ((3 : Nat) : Int) ⟨10, 20, 255⟩)[3]? = some ⟨10, 20, 255⟩ :=
  ⟨⟨scenarioLeds_length, by decide⟩,
    setLEDColors_read_back scenarioLeds scenarioLeds_length 3 (by decide) ⟨10, 20, 255⟩⟩

/-! ## Two cores: the invariant holds along every run -/

theorem zeroLeds_length : zeroLeds.length = LED_COUNT := List.length_replicate _ _

theorem channelPrefix_length_le (px : LEDPixel) (ch : Channel) :
    (channelPrefix px ch).length ≤ 16 := by
  cases ch <;> simp [channelPrefix, encodeByte_length]

theorem not_clearInCS_cases (leds0 leds : List LEDPixel) (cpc : ClearPc)
    (hinv : ClearInv leds0 leds cpc) (hcs : ¬ clearInCS cpc) :
    leds = leds0 ∨ leds = zeroLeds := by
  cases cpc with
  | atMutexEnter => exact Or.inl hinv
  | atStore loop ch => exact absurd trivial hcs
  | atMutexExit => exact absurd trivial hcs
  | returned => exact Or.inr hinv

theorem displayInv_of_not_inCS (leds0 leds leds1 : List LEDPixel) (buf : SpiBuffer) (off : Int)
    (dpc : DisplayPc) (hcs : ¬ displayInCS dpc) (h : DisplayInv leds0 leds buf off dpc) :
    DisplayInv leds0 leds1 buf off dpc := by
  cases dpc with
  | atMemset => exact h
  | atMutexEnter => exact h
  | atEncode loop ch => exact absurd trivial hcs
  | atMutexExit => exact absurd trivial hcs
  | composed => exact h

/-- The step `atEncode loop ch` of `displayTask` on a buffer that satisfies the invariant. -/
theorem encode_step (leds : List LEDPixel) (hlen : leds.length = LED_COUNT) (loop : Nat)
    (ch : Channel) (px : LEDPixel) (hpx : leds[loop]? = some px) (log : List Int) (o : Int)
    (ho : o = ((24 * loop + (channelPrefix px ch).length : Nat) : Int)) :
    colorByteToSPIBuffer
        ⟨encodeLeds (leds.take loop) ++ channelPrefix px ch ++
          List.replicate (SPIBYTES - (24 * loop + (channelPrefix px ch).length)) 0, log⟩
        o (px.channel ch) =
      some (⟨encodeLeds (leds.take loop) ++ channelPrefix px ch ++ encodeByte (px.channel ch) ++
          List.replicate (SPIBYTES - (24 * loop + (channelPrefix px ch).length) - 8) 0,
          log ++ indexRun o 8⟩, o + 8) := by
  have hloop : loop < LED_COUNT := by
    rw [← hlen]; exact (List.getElem?_eq_some_iff.mp hpx).1
  have h8 : LED_COUNT = 8 := rfl
  have h242 : SPIBYTES = 242 := rfl
  have hc := channelPrefix_length_le px ch
  have hpre : (encodeLeds (leds.take loop) ++ channelPrefix px ch).length =
      24 * loop + (channelPrefix px ch).length := by
    rw [List.length_append, encodeLeds_length, List.length_take]
    congr 2
    omega
  have hrep : List.replicate (SPIBYTES - (24 * loop + (channelPrefix px ch).length)) (0 : Nat) =
      List.replicate 8 0 ++
        List.replicate (SPIBYTES - (24 * loop + (channelPrefix px ch).length) - 8) 0 := by
    rw [← List.replicate_add]
    congr 1
    omega
  have := colorByteToSPIBuffer_frame (encodeLeds (leds.take loop) ++ channelPrefix px ch)
    (List.replicate 8 0)
    (List.replicate (SPIBYTES - (24 * loop + (channelPrefix px ch).length) - 8) 0) log
    (px.channel ch) (List.length_replicate _ _)
  rw [hpre, ← ho] at this
  rw [hrep, ← List.append_assoc]
  exact this

theorem take_succ_encodeLeds (leds : List LEDPixel) (loop : Nat) (px : LEDPixel)
    (hpx : leds[loop]? = some px) :
    encodeLeds (leds.take (loop + 1)) = encodeLeds (leds.take loop) ++ encodePixel px := by
  rw [List.take_succ, hpx, encodeLeds_append]
  simp [encodeLeds]

/-- Every step of `displayTask` is defined and keeps the invariant. -/
theorem displayStep_inv (leds0 : List LEDPixel) (s : System) (h : SystemInv leds0 s) :
    ∃ s1, displayStep s = some s1 ∧ SystemInv leds0 s1 := by
  obtain ⟨leds, owner, dpc, buf, off, cpc⟩ := s
  obtain ⟨hlen, hod, hoc, hci, hdi⟩ := h
  simp only at hlen hod hoc hci hdi
  have h8 : LED_COUNT = 8 := rfl
  have h242 : SPIBYTES = 242 := rfl
  have h50 : RESETBYTES = 50 := rfl
  cases dpc with
  | atMemset =>
    have hb : buf.bytes.length = SPIBYTES := hdi
    have hdrop : buf.bytes.drop SPIBYTES = [] := List.drop_eq_nil_of_le (by omega)
    refine ⟨_, by simp only [displayStep, memset, hb, le_refl, if_true]; rfl, ?_⟩
    refine ⟨hlen, ?_, hoc, hci, ?_⟩
    · simp only [displayInCS, iff_false]
      exact fun ho => hod.mp ho
    · show List.replicate SPIBYTES 0 ++ buf.bytes.drop SPIBYTES = List.replicate SPIBYTES 0
      rw [hdrop, List.append_nil]
  | atMutexEnter =>
    by_cases hfree : owner = none
    · subst hfree
      have hnc : ¬ clearInCS cpc := fun hc => by
        have := hoc.mpr hc
        simp at this
      have hhead : displayLoopHead 0 = DisplayPc.atEncode 0 Channel.G := by
        simp [displayLoopHead, h8]
      refine ⟨_, by simp only [displayStep, if_true]; rfl, ?_⟩
      rw [hhead]
      refine ⟨hlen, ?_, ?_, hci, ?_⟩
      · simp [displayInCS]
      · simp only [Option.some.injEq, reduceCtorEq, false_iff]
        exact hnc
      · have hb : buf.bytes = List.replicate SPIBYTES 0 := hdi
        have h0 : 0 < leds.length := by omega
        refine ⟨not_clearInCS_cases leds0 leds cpc hci hnc, leds[0], ?_, ?_, ?_⟩
        · exact List.getElem?_eq_getElem h0
        · simp [channelPrefix, encodeLeds, hb]
        · intro hne; exact absurd rfl hne
    · exact ⟨_, by simp only [displayStep, hfree, if_false]; rfl, ⟨hlen, hod, hoc, hci, hdi⟩⟩
  | atEncode loop ch =>
    obtain ⟨hL, px, hpx, hb, hoff⟩ := hdi
    have hloop : loop < LED_COUNT := by
      rw [← hlen]; exact (List.getElem?_eq_some_iff.mp hpx).1
    have hown : owner = some Core.core1 := hod.mpr trivial
    obtain ⟨bytes, log⟩ := buf
    simp only at hb
    subst hb
    have hstep := encode_step leds hlen loop ch px hpx log
      ((24 * loop + (channelPrefix px ch).length : Nat) : Int) rfl
    cases ch with
    | G =>
      have hoffG : (loop : Int) * (COLOR_BYTES : Int) * (SPI_BITS_PER_CYCLE : Int) =
          ((24 * loop + (channelPrefix px Channel.G).length : Nat) : Int) := by
        rw [pixelOffset_eq]; simp [channelPrefix]
      refine ⟨_, by simp only [displayStep, hpx, hoffG, hstep]; rfl, ?_⟩
      refine ⟨hlen, ?_, hoc, hci, ?_⟩
      · simp only [displayInCS, iff_true]; exact hown
      · refine ⟨hL, px, hpx, ?_, ?_⟩
        · simp only [channelPrefix, LEDPixel.channel, List.append_nil, List.length_nil,
            encodeByte_length, Nat.add_zero]
          congr 2
        · intro _
          simp only [channelPrefix, List.length_nil, encodeByte_length]
          push_cast
          ring
    | R =>
      have hoffR := hoff (by decide)
      refine ⟨_, by simp only [displayStep, hpx, hoffR, hstep]; rfl, ?_⟩
      refine ⟨hlen, ?_, hoc, hci, ?_⟩
      · simp only [displayInCS, iff_true]; exact hown
      · refine ⟨hL, px, hpx, ?_, ?_⟩
        · simp only [channelPrefix, LEDPixel.channel, List.length_append, encodeByte_length,
            List.append_assoc]
          congr 3
        · intro _
          simp only [channelPrefix, List.length_append, encodeByte_length]
          push_cast
          ring
    | B =>
      have hoffB := hoff (by decide)
      by_cases hnext : loop + 1 < LED_COUNT
      · have hhead : displayLoopHead (loop + 1) = DisplayPc.atEncode (loop + 1) Channel.G := by
          simp [displayLoopHead, hnext]
        refine ⟨_, by simp only [displayStep, hpx, hoffB, hstep, hhead]; rfl, ?_⟩
        refine ⟨hlen, ?_, hoc, hci, ?_⟩
        · simp only [displayInCS, iff_true]; exact hown
        · have h1 : loop + 1 < leds.length := by omega
          refine ⟨hL, leds[loop + 1], List.getElem?_eq_getElem h1, ?_, ?_⟩
          · rw [take_succ_encodeLeds leds loop px hpx]
            simp only [channelPrefix, LEDPixel.channel, encodePixel, List.length_append,
              encodeByte_length, List.append_assoc, List.append_nil, List.length_nil,
              List.nil_append]
            congr 4
          · intro hne; exact absurd rfl hne
      · have hhead : displayLoopHead (loop + 1) = DisplayPc.atMutexExit := by
          simp [displayLoopHead, hnext]
        refine ⟨_, by simp only [displayStep, hpx, hoffB, hstep, hhead]; rfl, ?_⟩
        refine ⟨hlen, ?_, hoc, hci, ?_⟩
        · simp only [displayInCS, iff_true]; exact hown
        · refine ⟨hL, ?_⟩
          have hfull : leds.take (loop + 1) = leds := List.take_of_length_le (by omega)
          have hl : loop = 7 := by omega
          rw [← hfull, take_succ_encodeLeds leds loop px hpx]
          simp only [channelPrefix, LEDPixel.channel, encodePixel, List.length_append,
            encodeByte_length, List.append_assoc]
          congr 4
          rw [hl, h242, h50]
  | atMutexExit =>
    obtain ⟨hL, hb⟩ := hdi
    have hown : owner = some Core.core1 := hod.mpr trivial
    have hnc : ¬ clearInCS cpc := fun hc => by
      have := hoc.mpr hc
      rw [hown] at this
      simp at this
    refine ⟨_, by simp only [displayStep]; rfl, ?_⟩
    refine ⟨hlen, ?_, ?_, hci, ?_⟩
    · simp [displayInCS]
    · simp only [reduceCtorEq, false_iff]
      exact hnc
    · exact ⟨leds, hL, hb⟩
  | composed =>
    exact ⟨_, by simp only [displayStep]; rfl, ⟨hlen, hod, hoc, hci, hdi⟩⟩

theorem clear_store (leds0 : List LEDPixel) (loop : Nat) (px q : LEDPixel) :
    (List.replicate loop (⟨0, 0, 0⟩ : LEDPixel) ++ px :: leds0.drop (loop + 1))[loop]? = some px ∧
    (List.replicate loop (⟨0, 0, 0⟩ : LEDPixel) ++ px :: leds0.drop (loop + 1)).set loop q =
      List.replicate loop (⟨0, 0, 0⟩ : LEDPixel) ++ q :: leds0.drop (loop + 1) := by
  have hl : (List.replicate loop (⟨0, 0, 0⟩ : LEDPixel)).length = loop := List.length_replicate _ _
  constructor
  · rw [List.getElem?_append_right (by omega), hl, Nat.sub_self, List.getElem?_cons_zero]
  · rw [List.set_append_right _ _ (by omega), hl, Nat.sub_self, List.set_cons_zero]

/-- Every step of `clearLEDs` is defined and keeps the invariant. -/
theorem clearStep_inv (leds0 : List LEDPixel) (hleds0 : leds0.length = LED_COUNT) (s : System)
    (h : SystemInv leds0 s) : ∃ s1, clearStep s = some s1 ∧ SystemInv leds0 s1 := by
  obtain ⟨leds, owner, dpc, buf, off, cpc⟩ := s
  obtain ⟨hlen, hod, hoc, hci, hdi⟩ := h
  simp only at hlen hod hoc hci hdi
  have h8 : LED_COUNT = 8 := rfl
  cases cpc with
  | atMutexEnter =>
    by_cases hfree : owner = none
    · subst hfree
      have hnd : ¬ displayInCS dpc := fun hc => by
        have := hod.mpr hc
        simp at this
      have hhead : clearLoopHead 0 = ClearPc.atStore 0 Channel.G := by
        simp [clearLoopHead, h8]
      have hl : leds = leds0 := hci
      have h0 : 0 < leds0.length := by omega
      refine ⟨_, by simp only [clearStep, if_true]; rfl, ?_⟩
      rw [hhead]
      refine ⟨hlen, ?_, ?_, ?_, hdi⟩
      · simp only [Option.some.injEq, reduceCtorEq, false_iff]
        exact hnd
      · simp [clearInCS]
      · refine ⟨leds0[0], List.getElem?_eq_getElem h0, ?_⟩
        show leds = [] ++ leds0[0] :: leds0.drop 1
        rw [hl, List.nil_append, ← drop_eq_cons_of_getElem? leds0 0 leds0[0]
          (List.getElem?_eq_getElem h0), List.drop_zero]
    · refine ⟨_, by simp only [clearStep, hfree, if_false]; rfl, ?_⟩
      exact ⟨hlen, hod, hoc, hci, hdi⟩
  | atStore loop ch =>
    obtain ⟨px, hpx, hl⟩ := hci
    have hloop : loop < LED_COUNT := by
      rw [← hleds0]; exact (List.getElem?_eq_some_iff.mp hpx).1
    have hown : owner = some Core.core0 := hoc.mpr trivial
    have hnd : ¬ displayInCS dpc := fun hc => by
      have := hod.mpr hc
      rw [hown] at this
      simp at this
    subst hl
    obtain ⟨hget, hset⟩ := clear_store leds0 loop (clearedBefore px ch)
      ((clearedBefore px ch).clearChannel ch)
    have hlen1 : (List.replicate loop (⟨0, 0, 0⟩ : LEDPixel) ++
        (clearedBefore px ch).clearChannel ch :: leds0.drop (loop + 1)).length = LED_COUNT := by
      rw [← hset, List.length_set]; exact hlen
    cases ch with
    | G =>
      refine ⟨_, by simp only [clearStep, hget, hset]; rfl, ?_⟩
      exact ⟨hlen1, hod, by simp only [clearInCS, iff_true]; exact hown, ⟨px, hpx, rfl⟩,
        displayInv_of_not_inCS leds0 _ _ buf off dpc hnd hdi⟩
    | R =>
      refine ⟨_, by simp only [clearStep, hget, hset]; rfl, ?_⟩
      exact ⟨hlen1, hod, by simp only [clearInCS, iff_true]; exact hown, ⟨px, hpx, rfl⟩,
        displayInv_of_not_inCS leds0 _ _ buf off dpc hnd hdi⟩
    | B =>
      have hsetB : (List.replicate loop (⟨0, 0, 0⟩ : LEDPixel) ++
          clearedBefore px Channel.B :: leds0.drop (loop + 1)).set loop
            ((clearedBefore px Channel.B).clearChannel Channel.B) =
          List.replicate loop (⟨0, 0, 0⟩ : LEDPixel) ++ ⟨0, 0, 0⟩ :: leds0.drop (loop + 1) := hset
      have hlenB : (List.replicate loop (⟨0, 0, 0⟩ : LEDPixel) ++
          ⟨0, 0, 0⟩ :: leds0.drop (loop + 1)).length = LED_COUNT := hlen1
      by_cases hnext : loop + 1 < LED_COUNT
      · have hhead : clearLoopHead (loop + 1) = ClearPc.atStore (loop + 1) Channel.G := by
          simp [clearLoopHead, hnext]
        have h1 : loop + 1 < leds0.length := by omega
        refine ⟨_, by simp only [clearStep, hget, hsetB, hhead]; rfl, ?_⟩
        refine ⟨hlenB, hod, by simp only [clearInCS, iff_true]; exact hown, ?_,
          displayInv_of_not_inCS leds0 _ _ buf off dpc hnd hdi⟩
        refine ⟨leds0[loop + 1], List.getElem?_eq_getElem h1, ?_⟩
        show List.replicate loop (⟨0, 0, 0⟩ : LEDPixel) ++ ⟨0, 0, 0⟩ :: leds0.drop (loop + 1) =
          List.replicate (loop + 1) ⟨0, 0, 0⟩ ++ leds0[loop + 1] :: leds0.drop (loop + 1 + 1)
        rw [← drop_eq_cons_of_getElem? leds0 (loop + 1) leds0[loop + 1]
          (List.getElem?_eq_getElem h1), List.replicate_succ']
        simp
      · have hhead : clearLoopHead (loop + 1) = ClearPc.atMutexExit := by
          simp [clearLoopHead, hnext]
        refine ⟨_, by simp only [clearStep, hget, hsetB, hhead]; rfl, ?_⟩
        refine ⟨hlenB, hod, by simp only [clearInCS, iff_true]; exact hown, ?_,
          displayInv_of_not_inCS leds0 _ _ buf off dpc hnd hdi⟩
        have hdrop : leds0.drop (loop + 1) = [] := List.drop_eq_nil_of_le (by omega)
        have hl : loop + 1 = LED_COUNT := by omega
        show List.replicate loop (⟨0, 0, 0⟩ : LEDPixel) ++ ⟨0, 0, 0⟩ :: leds0.drop (loop + 1) =
          zeroLeds
        rw [hdrop, zeroLeds, ← hl, List.replicate_succ']
  | atMutexExit =>
    have hown : owner = some Core.core0 := hoc.mpr trivial
    have hnd : ¬ displayInCS dpc := fun hc => by
      have := hod.mpr hc
      rw [hown] at this
      simp at this
    refine ⟨_, by simp only [clearStep]; rfl, ?_⟩
    refine ⟨hlen, ?_, ?_, hci, hdi⟩
    · simp only [reduceCtorEq, false_iff]
      exact hnd
    · simp [clearInCS]
  | returned =>
    refine ⟨_, by simp only [clearStep]; rfl, ?_⟩
    exact ⟨hlen, hod, hoc, hci, hdi⟩

theorem startSystem_inv (leds0 : List LEDPixel) (st : SpiBuffer × Int)
    (hleds : leds0.length = LED_COUNT) (hbuf : st.1.bytes.length = SPIBYTES) :
    SystemInv leds0 (startSystem leds0 st) := by
  refine ⟨hleds, ?_, ?_, rfl, hbuf⟩
  · simp [startSystem, displayInCS]
  · simp [startSystem, clearInCS]

/-- Every run is defined (no step leaves the arrays) and keeps the invariant. -/
theorem runSchedule_inv (leds0 : List LEDPixel) (hleds : leds0.length = LED_COUNT)
    (schedule : List Core) : ∀ s : System, SystemInv leds0 s →
    ∃ s1, runSchedule schedule s = some s1 ∧ SystemInv leds0 s1 := by
  induction schedule with
  | nil => intro s h; exact ⟨s, rfl, h⟩
  | cons c schedule ih =>
    intro s h
    have hstep : ∃ s1, systemStep s c = some s1 ∧ SystemInv leds0 s1 := by
      cases c with
      | core0 => exact clearStep_inv leds0 hleds s h
      | core1 => exact displayStep_inv leds0 s h
    obtain ⟨s1, hs1, hinv1⟩ := hstep
    obtain ⟨s2, hs2, hinv2⟩ := ih s1 hinv1
    refine ⟨s2, ?_, hinv2⟩
    simp only [runSchedule, hs1, hs2]

theorem clearLEDs_eq (leds : List LEDPixel) (hleds : leds.length = LED_COUNT) :
    clearLEDs leds = some zeroLeds := by
  have h := clearLoop_frame LED_COUNT 0 [] leds rfl hleds
  rw [List.nil_append, List.nil_append] at h
  exact h

/-- C9: when `clearLEDs` runs on core 0 concurrently with a cycle of `displayTask` on core 1,
under every interleaving of their atomic steps the run is defined and, once `displayTask`
has composed its frame, the frame is the payload of the pixel buffer as it was before
`clearLEDs` or the payload of the buffer as `clearLEDs` leaves it, never a mixture. -/
theorem clearLEDs_displayTask_atomic (leds0 : List LEDPixel) (st : SpiBuffer × Int)
    (hleds : leds0.length = LED_COUNT) (hbuf : st.1.bytes.length = SPIBYTES)
    (schedule : List Core) :
    ∃ s, runSchedule schedule (startSystem leds0 st) = some s ∧
      (s.displayPc = DisplayPc.composed →
        displayPayload leds0 st = some (s.spibuffer.bytes.take SPIBYTES) ∨
        ∃ cleared, clearLEDs leds0 = some cleared ∧
          displayPayload cleared st = some (s.spibuffer.bytes.take SPIBYTES)) := by
  obtain ⟨s, hrun, hinv⟩ :=
    runSchedule_inv leds0 hleds schedule _ (startSystem_inv leds0 st hleds hbuf)
  refine ⟨s, hrun, ?_⟩
  intro hpc
  have hdi := hinv.displayInv
  rw [hpc] at hdi
  obtain ⟨L, hL, hb⟩ := hdi
  have hLlen : L.length = LED_COUNT := by
    rcases hL with h | h
    · rw [h]; exact hleds
    · rw [h]; exact zeroLeds_length
  have hlen : (encodeLeds L ++ List.replicate RESETBYTES 0).length = SPIBYTES := by
    rw [List.length_append, encodeLeds_length, hLlen, List.length_replicate]
    rfl
  have htake : s.spibuffer.bytes.take SPIBYTES = encodeLeds L ++ List.replicate RESETBYTES 0 := by
    rw [hb, ← hlen, List.take_length]
  rw [htake]
  rcases hL with h | h
  · left
    rw [← h]
    exact displayPayload_eq L st hLlen hbuf
  · right
    refine ⟨zeroLeds, clearLEDs_eq leds0 hleds, ?_⟩
    rw [← h]
    exact displayPayload_eq L st hLlen hbuf

/-- The claim C9 at the scenario buffer under the schedule in which `displayTask` takes the
mutex first. -/
theorem clearLEDs_displayTask_atomic_witness :
    (scenarioLeds.length = LED_COUNT ∧
      ((⟨List.replicate 242 0xFF, []⟩, 0) : SpiBuffer × Int).1.bytes.length = SPIBYTES) ∧
    ∃ s, runSchedule displayFirstSchedule
        (startSystem scenarioLeds (⟨List.replicate 242 0xFF, []⟩, 0)) = some s ∧
      (s.displayPc = DisplayPc.composed →
        displayPayload scenarioLeds (⟨List.replicate 242 0xFF, []⟩, 0) =
          some (s.spibuffer.bytes.take SPIBYTES) ∨
        ∃ cleared, clearLEDs scenarioLeds = some cleared ∧
          displayPayload cleared (⟨List.replicate 242 0xFF, []⟩, 0) =
            some (s.spibuffer.bytes.take SPIBYTES)) :=
  ⟨⟨scenarioLeds_length, replicate_length_SPIBYTES 0xFF⟩,
    clearLEDs_displayTask_atomic scenarioLeds (⟨List.replicate 242 0xFF, []⟩, 0)
      scenarioLeds_length (replicate_length_SPIBYTES 0xFF) displayFirstSchedule⟩

set_option maxRecDepth 1000000 in
/-- Under `displayFirstSchedule` both routines run to their end and the composed frame is
the payload of the buffer as it was before `clearLEDs`. -/
theorem displayFirstSchedule_old_frame :
    (runSchedule displayFirstSchedule
        (startSystem scenarioLeds (⟨List.replicate 242 0xFF, []⟩, 0))).map
      (fun s => (s.displayPc, s.clearPc, some (s.spibuffer.bytes.take SPIBYTES))) =
    some (DisplayPc.composed, ClearPc.returned,
      displayPayload scenarioLeds (⟨List.replicate 242 0xFF, []⟩, 0)) := by
  decide

set_option maxRecDepth 1000000 in
/-- Under `clearFirstSchedule` both routines run to their end and the composed frame is the
payload of the cleared buffer. -/
theorem clearFirstSchedule_new_frame :
    (runSchedule clearFirstSchedule
        (startSystem scenarioLeds (⟨List.replicate 242 0xFF, []⟩, 0))).map
      (fun s => (s.displayPc, s.clearPc, some (s.spibuffer.bytes.take SPIBYTES))) =
    some (DisplayPc.composed, ClearPc.returned,
      displayPayload zeroLeds (⟨List.replicate 242 0xFF, []⟩, 0)) := by
  decide

set_option maxRecDepth 1000000 in
/-- The two frames of the scenario differ: the claim C9 distinguishes them. -/
theorem scenario_frames_differ :
    displayPayload scenarioLeds (⟨List.replicate 242 0xFF, []⟩, 0) ≠
      displayPayload zeroLeds (⟨List.replicate 242 0xFF, []⟩, 0) := by
  decide

/-! ## `displayTask`: bounds of the stores, and reading the frame back -/

/-- C12: during the composing pass of `displayTask` no store leaves the payload buffer: the
pass is defined, and the indices stored to by the three encoder calls of the `LED_COUNT`
pixels, `LED_COUNT * COLOR_BYTES * SPI_BITS_PER_CYCLE` of them, are all `≥ 0` and
`< SPIBYTES`. -/
theorem displayCompose_stores_in_bounds (leds : List LEDPixel) (st : SpiBuffer × Int)
    (hleds : leds.length = LED_COUNT) (hbuf : st.1.bytes.length = SPIBYTES) :
    ∃ r written, displayCompose leds st = some r ∧
      r.1.stores = st.1.stores ++ written ∧
      written.length = LED_COUNT * COLOR_BYTES * SPI_BITS_PER_CYCLE ∧
      ∀ i ∈ written, 0 ≤ i ∧ i < (SPIBYTES : Int) := by
  refine ⟨_, indexRun 0 (SPI_BITS_PER_CYCLE * LED_BYTES),
    displayCompose_eq leds st hleds hbuf, rfl, ?_, ?_⟩
  · simp [indexRun, SPI_BITS_PER_CYCLE, LED_BYTES, LED_COUNT, COLOR_BYTES]
  · intro i hi
    rw [mem_indexRun] at hi
    have h192 : ((SPI_BITS_PER_CYCLE * LED_BYTES : Nat) : Int) = 192 := rfl
    have h242 : (SPIBYTES : Int) = 242 := rfl
    rw [h192] at hi
    rw [h242]
    omega

/-- The claim C12 at the scenario buffer and a payload buffer that held `0xFF`. -/
theorem displayCompose_stores_in_bounds_witness :
    (scenarioLeds.length = LED_COUNT ∧
      ((⟨List.replicate 242 0xFF, []⟩, 192) : SpiBuffer × Int).1.bytes.length = SPIBYTES) ∧
    ∃ r written, displayCompose scenarioLeds (⟨List.replicate 242 0xFF, []⟩, 192) = some r ∧
      r.1.stores = ((⟨List.replicate 242 0xFF, []⟩, 192) : SpiBuffer × Int).1.stores ++ written ∧
      written.length = LED_COUNT * COLOR_BYTES * SPI_BITS_PER_CYCLE ∧
      ∀ i ∈ written, 0 ≤ i ∧ i < (SPIBYTES : Int) :=
  ⟨⟨scenarioLeds_length, replicate_length_SPIBYTES 0xFF⟩,
    displayCompose_stores_in_bounds scenarioLeds (⟨List.replicate 242 0xFF, []⟩, 192)
      scenarioLeds_length (replicate_length_SPIBYTES 0xFF)⟩

theorem take_drop_append_right (pre mid post : List Nat) (n : Nat) (hn : pre.length = n) :
    ((pre ++ (mid ++ post)).drop n).take mid.length = mid := by
  subst hn
  rw [List.drop_left, List.take_left]

/-- Reading pixel `i` back from a payload that holds the symbols of `px` there. -/
theorem decodePixelAt_eq (pre post : List Nat) (i : Nat) (px : LEDPixel)
    (hpre : pre.length = 24 * i) (hpx : px.valid) :
    decodePixelAt (pre ++ encodePixel px ++ post) i = some px := by
  obtain ⟨hG, hR, hB⟩ := hpx
  have e1 : pre ++ encodePixel px ++ post =
      pre ++ (encodeByte px.G ++ (encodeByte px.R ++ encodeByte px.B ++ post)) := by
    simp only [encodePixel, List.append_assoc]
  have e2 : pre ++ encodePixel px ++ post =
      (pre ++ encodeByte px.G) ++ (encodeByte px.R ++ (encodeByte px.B ++ post)) := by
    simp only [encodePixel, List.append_assoc]
  have e3 : pre ++ encodePixel px ++ post =
      (pre ++ encodeByte px.G ++ encodeByte px.R) ++ (encodeByte px.B ++ post) := by
    simp only [encodePixel, List.append_assoc]
  have g := take_drop_append_right pre (encodeByte px.G)
    (encodeByte px.R ++ encodeByte px.B ++ post) (24 * i) hpre
  have r := take_drop_append_right (pre ++ encodeByte px.G) (encodeByte px.R)
    (encodeByte px.B ++ post) (24 * i + 8) (by rw [List.length_append, hpre, encodeByte_length])
  have b := take_drop_append_right (pre ++ encodeByte px.G ++ encodeByte px.R)
    (encodeByte px.B) post (24 * i + 16)
    (by rw [List.length_append, List.length_append, hpre, encodeByte_length, encodeByte_length])
  rw [encodeByte_length] at g r b
  unfold decodePixelAt
  rw [← e1] at g
  rw [← e2] at r
  rw [← e3] at b
  rw [g, r, b, decode_encodeByte _ hG, decode_encodeByte _ hR, decode_encodeByte _ hB]

/-- Reading a composed frame back gives the pixel buffer it was composed from. -/
theorem decodeFrame_payload (leds : List LEDPixel) (hleds : leds.length = LED_COUNT)
    (hvalid : ∀ px ∈ leds, px.valid) :
    decodeFrame (encodeLeds leds ++ List.replicate RESETBYTES 0) = leds.map some := by
  unfold decodeFrame
  apply List.ext_getElem?
  intro i
  rw [List.getElem?_map, List.getElem?_map]
  by_cases hi : i < LED_COUNT
  · have hil : i < leds.length := by omega
    have hpx : leds[i]? = some leds[i] := List.getElem?_eq_getElem hil
    rw [List.getElem?_range hi, hpx]
    simp only [Option.map_some']
    rw [encodeLeds_split leds i leds[i] hpx, List.append_assoc]
    have hlen : (encodeLeds (leds.take i)).length = 24 * i := by
      rw [encodeLeds_length, List.length_take]
      congr 1
      omega
    rw [decodePixelAt_eq _ _ i leds[i] hlen (hvalid _ (List.getElem_mem hil))]
  · have h1 : (List.range LED_COUNT)[i]? = none := by
      rw [List.getElem?_eq_none_iff, List.length_range]; omega
    have h2 : leds[i]? = none := by
      rw [List.getElem?_eq_none_iff]; omega
    rw [h1, h2]
    rfl

/-- C15: frame composition is injective on pixel buffers of 8-bit channels: if the payloads
that `displayTask` composes from two pixel buffers are equal, the two buffers are equal in
every channel of every pixel; reading the symbol groups of a payload back recovers the
buffer. -/
theorem displayPayload_injective (leds1 leds2 : List LEDPixel) (st1 st2 : SpiBuffer × Int)
    (hleds1 : leds1.length = LED_COUNT) (hleds2 : leds2.length = LED_COUNT)
    (hbuf1 : st1.1.bytes.length = SPIBYTES) (hbuf2 : st2.1.bytes.length = SPIBYTES)
    (hvalid1 : ∀ px ∈ leds1, px.valid) (hvalid2 : ∀ px ∈ leds2, px.valid) :
    (∃ p, displayPayload leds1 st1 = some p ∧ decodeFrame p = leds1.map some) ∧
    (displayPayload leds1 st1 = displayPayload leds2 st2 → leds1 = leds2) := by
  have h1 := displayPayload_eq leds1 st1 hleds1 hbuf1
  have h2 := displayPayload_eq leds2 st2 hleds2 hbuf2
  refine ⟨⟨_, h1, decodeFrame_payload leds1 hleds1 hvalid1⟩, ?_⟩
  intro heq
  rw [h1, h2] at heq
  have hp := Option.some.inj heq
  have hd := congrArg decodeFrame hp
  rw [decodeFrame_payload leds1 hleds1 hvalid1, decodeFrame_payload leds2 hleds2 hvalid2] at hd
  exact List.map_injective_iff.mpr (Option.some_injective _) hd

theorem scenarioLeds_valid : ∀ px ∈ scenarioLeds, px.valid := by
  intro px hpx
  simp only [scenarioLeds, List.mem_cons, List.mem_replicate] at hpx
  rcases hpx with h | ⟨_, h⟩ <;> subst h <;> exact ⟨by decide, by decide, by decide⟩

theorem zeroLeds_valid : ∀ px ∈ zeroLeds, px.valid := by
  intro px hpx
  simp only [zeroLeds, List.mem_replicate] at hpx
  obtain ⟨_, h⟩ := hpx
  subst h
  exact ⟨by decide, by decide, by decide⟩

/-- The claim C15 at the scenario buffer and the cleared buffer, composed over payload
buffers that held `0xFF` and `0x00`. -/
theorem displayPayload_injective_witness :
    (scenarioLeds.length = LED_COUNT ∧ zeroLeds.length = LED_COUNT ∧
      ((⟨List.replicate 242 0xFF, []⟩, 192) : SpiBuffer × Int).1.bytes.length = SPIBYTES ∧
      ((⟨List.replicate 242 0, []⟩, 0) : SpiBuffer × Int).1.bytes.length = SPIBYTES ∧
      (∀ px ∈ scenarioLeds, px.valid) ∧ (∀ px ∈ zeroLeds, px.valid)) ∧
    ((∃ p, displayPayload scenarioLeds (⟨List.replicate 242 0xFF, []⟩, 192) = some p ∧
        decodeFrame p = scenarioLeds.map some) ∧
      (displayPayload scenarioLeds (⟨List.replicate 242 0xFF, []⟩, 192) =
          displayPayload zeroLeds (⟨List.replicate 242 0, []⟩, 0) →
        scenarioLeds = zeroLeds)) :=
  ⟨⟨scenarioLeds_length, zeroLeds_length, replicate_length_SPIBYTES 0xFF,
      replicate_length_SPIBYTES 0, scenarioLeds_valid, zeroLeds_valid⟩,
    displayPayload_injective scenarioLeds zeroLeds (⟨List.replicate 242 0xFF, []⟩, 192)
      (⟨List.replicate 242 0, []⟩, 0) scenarioLeds_length zeroLeds_length
      (replicate_length_SPIBYTES 0xFF) (replicate_length_SPIBYTES 0)
      scenarioLeds_valid zeroLeds_valid⟩

/-! ## The pattern routines: lock discipline and defined stores -/

theorem Holds.bind {α β : Type} {Q : α → Prop} {okP : β → Prop} {errP : Producer → Prop}
    {x : Except Producer α} {f : α → Except Producer β}
    (hx : Holds Q errP x) (hf : ∀ a, Q a → Holds okP errP (f a)) :
    Holds okP errP (x >>= f) := by
  cases x with
  | ok a => exact hf a hx
  | error p => exact hx

theorem Holds.weaken {α : Type} {Q okP : α → Prop} {errQ errP : Producer → Prop}
    {x : Except Producer α} (hx : Holds Q errQ x) (hok : ∀ a, Q a → okP a)
    (herr : ∀ p, errQ p → errP p) : Holds okP errP x := by
  cases x with
  | ok a => exact hok a hx
  | error p => exact herr p hx

theorem Holds.returns {α : Type} {okP : α → Prop} {x : Except Producer α}
    (hx : Holds okP (fun _ => False) x) : ∃ a, x = Except.ok a ∧ okP a := by
  cases x with
  | ok a => exact ⟨a, rfl, hx⟩
  | error p => exact absurd hx id

theorem lockCheck_append (a b : List Event) (held : Bool) :
    lockCheck (a ++ b) held = (lockCheck a held).bind (lockCheck b) := by
  induction a generalizing held with
  | nil => rfl
  | cons e a ih =>
    simp only [List.cons_append, lockCheck]
    cases lockStep held e with
    | none => rfl
    | some h1 => exact ih h1

theorem Outside.enter {p : Producer} (h : Outside p) : Inside (p.emit Event.mutexEnter) := by
  refine ⟨?_, h.2⟩
  simp only [Producer.emit, lockCheck_append, h.1]
  rfl

theorem Inside.exit {p : Producer} (h : Inside p) : Outside (p.emit Event.mutexExit) := by
  refine ⟨?_, h.2⟩
  simp only [Producer.emit, lockCheck_append, h.1]
  rfl

theorem Outside.sleep {p : Producer} (h : Outside p) (ms : Nat) :
    Outside (p.emit (Event.sleep ms)) := by
  refine ⟨?_, h.2⟩
  simp only [Producer.emit, lockCheck_append, h.1]
  rfl

theorem Outside.afterRand {p : Producer} (h : Outside p) : Outside p.randCalled := h

theorem Inside.afterRandInside {p : Producer} (h : Inside p) : Inside p.randCalled := h

theorem Inside.keepsDiscipline {p : Producer} (h : Inside p) : Disciplined p := ⟨true, h.1⟩

/-- A store inside the array is defined and changes neither the log nor the size of the
pixel buffer. -/
theorem storeChannel_inside {p : Producer} (h : Inside p) (i : Int) (ch : Channel) (v : Int)
    (h0 : 0 ≤ i) (h1 : i < (LED_COUNT : Int)) (errP : Producer → Prop) :
    Holds Inside errP (p.storeChannel i ch v) := by
  have hlen : p.leds.length = LED_COUNT := h.2
  have hi : i.toNat < p.leds.length := by omega
  unfold Producer.storeChannel
  rw [if_pos ⟨h0, by rw [hlen]; exact h1⟩, List.getElem?_eq_getElem hi]
  exact ⟨h.1, by simp only [List.length_set]; exact hlen⟩

theorem clearLEDsCall_outside {p : Producer} (h : Outside p) (errP : Producer → Prop) :
    Holds Outside errP (clearLEDsCall p) := by
  unfold clearLEDsCall
  have hin := h.enter
  simp only [clearLEDs_eq (p.emit Event.mutexEnter).leds hin.2]
  have hin2 : Inside { p.emit Event.mutexEnter with leds := zeroLeds } :=
    ⟨hin.1, zeroLeds_length⟩
  exact hin2.exit

/-! ### `rollingBit` -/

theorem rollingBitStores_inside {p : Producer} (h : Inside p) (bit : Nat) (loop : Int)
    (h0 : 0 ≤ loop) (h1 : loop + 3 < (LED_COUNT : Int)) (errP : Producer → Prop) :
    Holds Inside errP (rollingBitStores bit loop p) := by
  unfold rollingBitStores
  refine Holds.bind (storeChannel_inside h loop _ _ h0 (by omega) errP) ?_
  intro p1 hp1
  refine Holds.bind (storeChannel_inside hp1 (loop + 1) _ _ (by omega) (by omega) errP) ?_
  intro p2 hp2
  refine Holds.bind (storeChannel_inside hp2 (loop + 2) _ _ (by omega) (by omega) errP) ?_
  intro p3 hp3
  refine Holds.bind (storeChannel_inside hp3 (loop + 3) _ _ (by omega) h1 errP) ?_
  intro p4 hp4
  exact storeChannel_inside hp4 (loop + 3) _ _ (by omega) h1 errP

theorem rollingBitFill_inside (bit : Nat) (errP : Producer → Prop) (n : Nat) :
    ∀ (loop : Int) (p : Producer), Inside p → 0 ≤ loop → loop + 4 * (n : Int) ≤ (LED_COUNT : Int) →
    Holds Inside errP (rollingBitFill bit n loop p) := by
  induction n with
  | zero => intro loop p h _ _; exact h
  | succ n ih =>
    intro loop p h h0 h1
    unfold rollingBitFill
    refine Holds.bind (rollingBitStores_inside h bit loop h0 (by push_cast at h1; omega) errP) ?_
    intro p1 hp1
    exact ih (loop + 4) p1 hp1 (by omega) (by push_cast at h1; omega)

theorem rollingBitLoop_outside (errP : Producer → Prop) (count : Nat) :
    ∀ (bit : Nat) (p : Producer), Outside p → Holds Outside errP (rollingBitLoop count bit p) := by
  induction count with
  | zero => intro bit p h; exact h
  | succ count ih =>
    intro bit p h
    unfold rollingBitLoop
    refine Holds.bind (rollingBitFill_inside bit errP ((LED_COUNT + 3) / 4) 0 _ h.enter
      (le_refl _) (by decide)) ?_
    intro p1 hp1
    exact ih _ _ (hp1.exit.sleep 1000)

theorem rollingBit_outside (rand : Nat → Nat) (errP : Producer → Prop) {p : Producer}
    (h : Outside p) : Holds Outside errP (rollingBit rand p) := by
  unfold rollingBit
  refine Holds.bind (clearLEDsCall_outside h.afterRand errP) ?_
  intro p1 hp1
  refine Holds.bind (rollingBitLoop_outside errP _ _ p1 hp1) ?_
  intro p2 hp2
  exact clearLEDsCall_outside hp2 errP

/-! ### `cylon` -/

theorem cylonStore_inside {p : Producer} (h : Inside p) (color i l : Int)
    (h0 : 0 ≤ i) (h1 : i < (LED_COUNT : Int)) (errP : Producer → Prop) :
    Holds Inside errP (cylonStore color i l p) := by
  unfold cylonStore
  split
  · exact storeChannel_inside h i _ _ h0 h1 errP
  · split
    · exact storeChannel_inside h i _ _ h0 h1 errP
    · split
      · exact storeChannel_inside h i _ _ h0 h1 errP
      · exact h

theorem cylonGuardedStore_inside {p : Producer} (h : Inside p) (color i l : Int)
    (errP : Producer → Prop) : Holds Inside errP (cylonGuardedStore color i l p) := by
  unfold cylonGuardedStore
  split
  · next hc => exact cylonStore_inside h color _ _ hc.1 hc.2 errP
  · exact h

theorem cylonPixel_inside {p : Producer} (h : Inside p) (color offset : Int) (loop : Nat)
    (errP : Producer → Prop) : Holds Inside errP (cylonPixel color offset loop p) := by
  unfold cylonPixel
  refine Holds.bind (cylonGuardedStore_inside h color _ _ errP) ?_
  intro p1 hp1
  exact cylonGuardedStore_inside hp1 color _ _ errP

theorem cylonFill_inside (color offset : Int) (errP : Producer → Prop) (n : Nat) :
    ∀ (loop : Nat) (p : Producer), Inside p →
    Holds Inside errP (cylonFill color offset n loop p) := by
  induction n with
  | zero => intro loop p h; exact h
  | succ n ih =>
    intro loop p h
    unfold cylonFill
    refine Holds.bind (cylonPixel_inside h color offset loop errP) ?_
    intro p1 hp1
    exact ih (loop + 1) p1 hp1

theorem cylon_offset_step (o d : Int) (h1 : -8 ≤ o) (h2 : o ≤ 8) (hd : d = 1 ∨ d = -1)
    (he1 : o = 8 → d = -1) (he2 : o = -8 → d = 1) :
    -8 ≤ o + d ∧ o + d ≤ 8 ∧
      ((if o + d = -1 * 8 then (1 : Int) else if o + d = 8 then -1 else d) = 1 ∨
        (if o + d = -1 * 8 then (1 : Int) else if o + d = 8 then -1 else d) = -1) ∧
      (o + d = 8 → (if o + d = -1 * 8 then (1 : Int) else if o + d = 8 then -1 else d) = -1) ∧
      (o + d = -8 → (if o + d = -1 * 8 then (1 : Int) else if o + d = 8 then -1 else d) = 1) := by
  rcases hd with rfl | rfl <;> split_ifs <;> omega

theorem cylonStep_inv (color : Int) (errP : Producer → Prop) {s : CylonState}
    (h : CylonInv s) : Holds CylonInv errP (cylonStep color s) := by
  obtain ⟨hout, hlo, hhi, hdir, hend1, hend2⟩ := h
  unfold cylonStep
  refine Holds.bind (clearLEDsCall_outside hout errP) ?_
  intro p1 hp1
  refine Holds.bind (cylonFill_inside color s.offset errP (LED_COUNT / 2) 0 _ hp1.enter) ?_
  intro p2 hp2
  have h8 : (LED_COUNT : Int) = 8 := rfl
  rw [h8] at hlo hhi hend1 hend2
  exact ⟨hp2.exit.sleep 100, cylon_offset_step s.offset s.dir hlo hhi hdir hend1 hend2⟩

theorem cylonLoop_inv (color : Int) (errP : Producer → Prop) (count : Nat) :
    ∀ s : CylonState, CylonInv s → Holds CylonInv errP (cylonLoop color count s) := by
  induction count with
  | zero => intro s h; exact h
  | succ count ih =>
    intro s h
    unfold cylonLoop
    exact Holds.bind (cylonStep_inv color errP h) (fun s1 hs1 => ih s1 hs1)

theorem cylonInv_start {p : Producer} (h : Outside p) :
    CylonInv { core := p, offset := 0, dir := 1 } := by
  refine ⟨h, ?_, ?_, Or.inl rfl, ?_, ?_⟩ <;> simp [LED_COUNT]

theorem cylon_outside (rand : Nat → Nat) (errP : Producer → Prop) {p : Producer}
    (h : Outside p) : Holds Outside errP (cylon rand p) := by
  unfold cylon
  refine Holds.bind (cylonLoop_inv _ errP _ _ (cylonInv_start h.afterRand.afterRand)) ?_
  intro s hs
  exact clearLEDsCall_outside hs.1 errP

/-! ### `randomizeColors` -/

theorem randomizeChannel_inside (rand : Nat → Nat) {p : Producer} (h : Inside p) (level : Int)
    (loop : Nat) (hloop : loop < LED_COUNT) (ch : Channel) :
    Holds Inside Disciplined (randomizeChannel rand level loop ch p) := by
  unfold randomizeChannel
  simp only
  split
  · exact h.afterRandInside.keepsDiscipline
  · exact storeChannel_inside h.afterRandInside loop ch _ (Int.natCast_nonneg _)
      (by exact_mod_cast hloop) Disciplined

theorem randomizePixel_inside (rand : Nat → Nat) {p : Producer} (h : Inside p) (loop : Nat)
    (hloop : loop < LED_COUNT) : Holds Inside Disciplined (randomizePixel rand loop p) := by
  unfold randomizePixel
  simp only
  split
  · refine Holds.bind (randomizeChannel_inside rand h.afterRandInside.afterRandInside _ loop hloop _) ?_
    intro p1 hp1
    refine Holds.bind (randomizeChannel_inside rand hp1 _ loop hloop _) ?_
    intro p2 hp2
    exact randomizeChannel_inside rand hp2 _ loop hloop _
  · exact h.afterRandInside

theorem randomizeFill_inside (rand : Nat → Nat) (n : Nat) :
    ∀ (loop : Nat) (p : Producer), Inside p → loop + n ≤ LED_COUNT →
    Holds Inside Disciplined (randomizeFill rand n loop p) := by
  induction n with
  | zero => intro loop p h _; exact h
  | succ n ih =>
    intro loop p h hn
    unfold randomizeFill
    refine Holds.bind (randomizePixel_inside rand h loop (by omega)) ?_
    intro p1 hp1
    exact ih (loop + 1) p1 hp1 (by omega)

theorem randomizeLoop_outside (rand : Nat → Nat) (count : Nat) :
    ∀ p : Producer, Outside p → Holds Outside Disciplined (randomizeLoop rand count p) := by
  induction count with
  | zero => intro p h; exact h
  | succ count ih =>
    intro p h
    unfold randomizeLoop
    refine Holds.bind (clearLEDsCall_outside h Disciplined) ?_
    intro p1 hp1
    refine Holds.bind (randomizeFill_inside rand LED_COUNT 0 _ hp1.enter (by omega)) ?_
    intro p2 hp2
    exact ih _ ((hp2.exit).sleep 600)

theorem randomizeColors_outside (rand : Nat → Nat) {p : Producer} (h : Outside p) :
    Holds Outside Disciplined (randomizeColors rand p) := by
  unfold randomizeColors
  exact randomizeLoop_outside rand _ _ h.afterRand

/-! ### `electricRain` -/

theorem fadeChannel_inside (rand : Nat → Nat) {p : Producer} (h : Inside p) (loop : Nat)
    (hloop : loop < LED_COUNT) (ch : Channel) (errP : Producer → Prop) :
    Holds Inside errP (fadeChannel rand loop ch p) := by
  have hlen : loop < p.leds.length := by rw [h.2]; exact hloop
  unfold fadeChannel
  rw [List.getElem?_eq_getElem hlen]
  simp only
  split
  · exact storeChannel_inside h.afterRandInside loop ch _ (Int.natCast_nonneg _)
      (by exact_mod_cast hloop) errP
  · exact h

theorem fadePixel_inside (rand : Nat → Nat) {p : Producer} (h : Inside p) (loop : Nat)
    (hloop : loop < LED_COUNT) (errP : Producer → Prop) :
    Holds Inside errP (fadePixel rand loop p) := by
  unfold fadePixel
  refine Holds.bind (fadeChannel_inside rand h loop hloop _ errP) ?_
  intro p1 hp1
  refine Holds.bind (fadeChannel_inside rand hp1 loop hloop _ errP) ?_
  intro p2 hp2
  exact fadeChannel_inside rand hp2 loop hloop _ errP

theorem fadeFill_inside (rand : Nat → Nat) (errP : Producer → Prop) (n : Nat) :
    ∀ (loop : Nat) (p : Producer), Inside p → loop + n ≤ LED_COUNT →
    Holds Inside errP (fadeFill rand n loop p) := by
  induction n with
  | zero => intro loop p h _; exact h
  | succ n ih =>
    intro loop p h hn
    unfold fadeFill
    refine Holds.bind (fadePixel_inside rand h loop (by omega) errP) ?_
    intro p1 hp1
    exact ih (loop + 1) p1 hp1 (by omega)

theorem fadeLoop_outside (rand : Nat → Nat) (errP : Producer → Prop) (droprandom : Nat) :
    ∀ p : Producer, Outside p → Holds Outside errP (fadeLoop rand droprandom p) := by
  induction droprandom with
  | zero => intro p h; exact h
  | succ droprandom ih =>
    intro p h
    unfold fadeLoop
    refine Holds.bind (fadeFill_inside rand errP LED_COUNT 0 _ h.enter (by omega)) ?_
    intro p1 hp1
    exact ih _ ((hp1.exit).sleep 100)

theorem rainDrop_inside (rand : Nat → Nat) {p : Producer} (h : Inside p)
    (errP : Producer → Prop) : Holds Inside errP (rainDrop rand p) := by
  have h8 : (LED_COUNT : Int) = 8 := rfl
  have h0 : (0 : Int) ≤ (rand p.randCalls : Int) % (LED_COUNT : Int) :=
    Int.emod_nonneg _ (by rw [h8]; decide)
  have h1 : (rand p.randCalls : Int) % (LED_COUNT : Int) < (LED_COUNT : Int) :=
    Int.emod_lt_of_pos _ (by rw [h8]; decide)
  unfold rainDrop
  refine Holds.bind (storeChannel_inside h.afterRandInside.afterRandInside _ _ _ h0 h1 errP) ?_
  intro p1 hp1
  refine Holds.bind (storeChannel_inside hp1.afterRandInside _ _ _ h0 h1 errP) ?_
  intro p2 hp2
  exact storeChannel_inside hp2.afterRandInside _ _ _ h0 h1 errP

theorem rainLoop_outside (rand : Nat → Nat) (errP : Producer → Prop) (count : Nat) :
    ∀ p : Producer, Outside p → Holds Outside errP (rainLoop rand count p) := by
  induction count with
  | zero => intro p h; exact h
  | succ count ih =>
    intro p h
    unfold rainLoop
    refine Holds.bind (rainDrop_inside rand h.enter errP) ?_
    intro p1 hp1
    refine Holds.bind (fadeLoop_outside rand errP _ _ hp1.exit.afterRand) ?_
    intro p2 hp2
    exact ih p2 hp2

theorem electricRain_outside (rand : Nat → Nat) (errP : Producer → Prop) {p : Producer}
    (h : Outside p) : Holds Outside errP (electricRain rand p) := by
  unfold electricRain
  exact rainLoop_outside rand errP _ _ h.afterRand

/-! ### The claims on the pattern routines -/

theorem outside_start (p : Producer) (hleds : p.leds.length = LED_COUNT) (hev : p.events = []) :
    Outside p := by
  refine ⟨?_, hleds⟩
  rw [hev]
  rfl

/-- C11: no producer routine sleeps or takes the mutex again while it holds the mutex, and
none sleeps or returns with the mutex held.  For every sequence `rand` of `rand()` values,
`clearLEDs`, `rollingBit`, `cylon` and `electricRain` return with a log of events that keeps
the lock discipline and ends with the mutex free; `randomizeColors` does so whenever it
returns, and when it stops at a remainder by zero its log keeps the discipline up to
there. -/
theorem producers_keep_lock_discipline (rand : Nat → Nat) (p : Producer)
    (hleds : p.leds.length = LED_COUNT) (hev : p.events = []) :
    (∃ p1, clearLEDsCall p = Except.ok p1 ∧ lockCheck p1.events false = some false) ∧
    (∃ p1, rollingBit rand p = Except.ok p1 ∧ lockCheck p1.events false = some false) ∧
    (∃ p1, cylon rand p = Except.ok p1 ∧ lockCheck p1.events false = some false) ∧
    (∃ p1, electricRain rand p = Except.ok p1 ∧ lockCheck p1.events false = some false) ∧
    (match randomizeColors rand p with
      | Except.ok p1 => lockCheck p1.events false = some false
      | Except.error p1 => ∃ held, lockCheck p1.events false = some held) := by
  have h := outside_start p hleds hev
  refine ⟨?_, ?_, ?_, ?_, ?_⟩
  · obtain ⟨p1, h1, h2⟩ := (clearLEDsCall_outside h (fun _ => False)).returns
    exact ⟨p1, h1, h2.1⟩
  · obtain ⟨p1, h1, h2⟩ := (rollingBit_outside rand (fun _ => False) h).returns
    exact ⟨p1, h1, h2.1⟩
  · obtain ⟨p1, h1, h2⟩ := (cylon_outside rand (fun _ => False) h).returns
    exact ⟨p1, h1, h2.1⟩
  · obtain ⟨p1, h1, h2⟩ := (electricRain_outside rand (fun _ => False) h).returns
    exact ⟨p1, h1, h2.1⟩
  · have hr := randomizeColors_outside rand h
    cases hrc : randomizeColors rand p with
    | ok p1 => rw [hrc] at hr; exact hr.1
    | error p1 => rw [hrc] at hr; exact hr

/-- The claim C11 at the scenario buffer and the sequence `rand n = 7 * n + 3`. -/
theorem producers_keep_lock_discipline_witness :
    ((⟨scenarioLeds, 0, [], []⟩ : Producer).leds.length = LED_COUNT ∧
      (⟨scenarioLeds, 0, [], []⟩ : Producer).events = []) ∧
    ((∃ p1, clearLEDsCall ⟨scenarioLeds, 0, [], []⟩ = Except.ok p1 ∧
        lockCheck p1.events false = some false) ∧
    (∃ p1, rollingBit (fun n => 7 * n + 3) ⟨scenarioLeds, 0, [], []⟩ = Except.ok p1 ∧
        lockCheck p1.events false = some false) ∧
    (∃ p1, cylon (fun n => 7 * n + 3) ⟨scenarioLeds, 0, [], []⟩ = Except.ok p1 ∧
        lockCheck p1.events false = some false) ∧
    (∃ p1, electricRain (fun n => 7 * n + 3) ⟨scenarioLeds, 0, [], []⟩ = Except.ok p1 ∧
        lockCheck p1.events false = some false) ∧
    (match randomizeColors (fun n => 7 * n + 3) ⟨scenarioLeds, 0, [], []⟩ with
      | Except.ok p1 => lockCheck p1.events false = some false
      | Except.error p1 => ∃ held, lockCheck p1.events false = some held)) :=
  ⟨⟨scenarioLeds_length, rfl⟩,
    producers_keep_lock_discipline (fun n => 7 * n + 3) ⟨scenarioLeds, 0, [], []⟩
      scenarioLeds_length rfl⟩

/-- The lock discipline rejects a sleep inside a critical section, a second
`mutex_enter_blocking` inside one, and accepts the pattern of the routines. -/
theorem lockCheck_examples :
    lockCheck [Event.mutexEnter, Event.sleep 100] false = none ∧
    lockCheck [Event.mutexEnter, Event.mutexEnter] false = none ∧
    lockCheck [Event.mutexEnter] false = some true ∧
    lockCheck [Event.mutexEnter, Event.mutexExit, Event.sleep 100] false = some false := by
  decide

/-- C13, the failing run: when `rand()` returns 0 every time, `randomizeColors` takes case 0
of the `switch` at pixel 0, sets `level = 0` and computes `rand() % level`, a remainder by
zero, after its fourth call of `rand()` and while it holds the mutex. -/
theorem randomizeColors_remainder_by_zero :
    randomizeColors (fun _ => 0) ⟨zeroLeds, 0, [], []⟩ =
      Except.error ⟨zeroLeds, 4, [Event.mutexEnter, Event.mutexExit, Event.mutexEnter],
        clearLEDsWrites⟩ := by
  rfl

/-! ### `cylon`: the offset; `rollingBit`: the bit -/

theorem storeChannel_ok_iff (q : Producer) (i : Int) (ch : Channel) (v : Int)
    (hlen : q.leds.length = LED_COUNT) :
    (∃ q1, q.storeChannel i ch v = Except.ok q1) ↔ (0 ≤ i ∧ i < (LED_COUNT : Int)) := by
  unfold Producer.storeChannel
  rw [hlen]
  constructor
  · rintro ⟨q1, h⟩
    by_contra hc
    rw [if_neg hc] at h
    exact Except.noConfusion h
  · intro hi
    have hlt : i.toNat < q.leds.length := by omega
    rw [if_pos hi, List.getElem?_eq_getElem hlt]
    exact ⟨_, rfl⟩

/-- C16: in `cylon`, for every colour and every number of iterations of the outer loop, the
loop runs without a store outside `leds` (a store is defined exactly when its index is in
`0..LED_COUNT-1`) and afterwards the display offset satisfies
`-LED_COUNT ≤ offset ≤ LED_COUNT`; the whole routine returns for every sequence of `rand()`
values. -/
theorem cylon_offset_bounded (rand : Nat → Nat) (p : Producer)
    (hleds : p.leds.length = LED_COUNT) (hev : p.events = []) (color : Int) (count : Nat) :
    (∃ s, cylonLoop color count { core := p, offset := 0, dir := 1 } = Except.ok s ∧
      -(LED_COUNT : Int) ≤ s.offset ∧ s.offset ≤ (LED_COUNT : Int)) ∧
    (∃ p1, cylon rand p = Except.ok p1) ∧
    (∀ (q : Producer) (i : Int) (ch : Channel) (v : Int), q.leds.length = LED_COUNT →
      ((∃ q1, q.storeChannel i ch v = Except.ok q1) ↔ (0 ≤ i ∧ i < (LED_COUNT : Int)))) := by
  have h := outside_start p hleds hev
  refine ⟨?_, ?_, storeChannel_ok_iff⟩
  · obtain ⟨s, h1, h2⟩ :=
      (cylonLoop_inv color (fun _ => False) count _ (cylonInv_start h)).returns
    exact ⟨s, h1, h2.2.1, h2.2.2.1⟩
  · obtain ⟨p1, h1, _⟩ := (cylon_outside rand (fun _ => False) h).returns
    exact ⟨p1, h1⟩

/-- The claim C16 at the scenario buffer, the colour 1 and 100 iterations. -/
theorem cylon_offset_bounded_witness :
    ((⟨scenarioLeds, 0, [], []⟩ : Producer).leds.length = LED_COUNT ∧
      (⟨scenarioLeds, 0, [], []⟩ : Producer).events = []) ∧
    ((∃ s, cylonLoop 1 100 { core := ⟨scenarioLeds, 0, [], []⟩, offset := 0, dir := 1 } =
        Except.ok s ∧ -(LED_COUNT : Int) ≤ s.offset ∧ s.offset ≤ (LED_COUNT : Int)) ∧
    (∃ p1, cylon (fun n => 7 * n + 3) ⟨scenarioLeds, 0, [], []⟩ = Except.ok p1) ∧
    (∀ (q : Producer) (i : Int) (ch : Channel) (v : Int), q.leds.length = LED_COUNT →
      ((∃ q1, q.storeChannel i ch v = Except.ok q1) ↔ (0 ≤ i ∧ i < (LED_COUNT : Int))))) :=
  ⟨⟨scenarioLeds_length, rfl⟩,
    cylon_offset_bounded (fun n => 7 * n + 3) ⟨scenarioLeds, 0, [], []⟩ scenarioLeds_length rfl
      1 100⟩

theorem rollingBitNext_two_pow (j : Nat) (hj : j < 8) :
    rollingBitNext (2 ^ j) = 2 ^ ((j + 1) % 8) := by
  interval_cases j <;> rfl

theorem rollingBitNext_iterate (k : Nat) : rollingBitNext^[k] 0x1 = 2 ^ (k % 8) := by
  induction k with
  | zero => rfl
  | succ k ih =>
    rw [Function.iterate_succ_apply', ih, rollingBitNext_two_pow _ (Nat.mod_lt _ (by decide))]
    congr 1
    omega

theorem rollingBitNext_lt (bit : Nat) : rollingBitNext bit < 256 := by
  unfold rollingBitNext
  simp only
  split
  · decide
  · exact Nat.mod_lt _ (by decide)

/-! ### `electricRain`: the fade pass -/

theorem fadeValue_lt (c r : Nat) (h : 1 ≤ c) : fadeValue c r < c ∧ fadeValue c r < 256 := by
  have hm : r % (c / 4 + 1) < c / 4 + 1 := Nat.mod_lt _ (Nat.succ_pos _)
  unfold fadeValue
  rw [if_pos (by omega)]
  have hcast : (r : Int) % ((c : Int) / 4 + 1) + 1 = ((r % (c / 4 + 1) + 1 : Nat) : Int) := by
    push_cast
    rfl
  simp only [hcast]
  generalize r % (c / 4 + 1) = m at hm ⊢
  omega

theorem fadeValue_eq (c r : Nat) (h1 : 1 ≤ c) (h2 : c ≤ 255) :
    fadeValue c r = c - (r % (c / 4 + 1) + 1) := by
  have hm : r % (c / 4 + 1) < c / 4 + 1 := Nat.mod_lt _ (Nat.succ_pos _)
  unfold fadeValue
  rw [if_pos (by omega)]
  have hcast : (r : Int) % ((c : Int) / 4 + 1) + 1 = ((r % (c / 4 + 1) + 1 : Nat) : Int) := by
    push_cast
    rfl
  simp only [hcast]
  generalize r % (c / 4 + 1) = m at hm ⊢
  omega

theorem channel_setChannel (px : LEDPixel) (ch ch1 : Channel) (v : Nat) :
    (px.setChannel ch v).channel ch1 = if ch = ch1 then v else px.channel ch1 := by
  cases ch <;> cases ch1 <;> rfl

theorem setChannel_self (px : LEDPixel) (ch : Channel) :
    px.setChannel ch (px.channel ch) = px := by
  cases ch <;> rfl

theorem set_same (leds : List LEDPixel) (i : Nat) (px : LEDPixel) (h : leds[i]? = some px) :
    leds.set i px = leds := by
  apply List.ext_getElem?
  intro j
  by_cases hij : i = j
  · subst hij
    rw [List.getElem?_set_self (List.getElem?_eq_some_iff.mp h).1, h]
  · rw [List.getElem?_set_ne hij]

/-- The fade of a channel above zero: one value of `rand()` is drawn and the faded value is
stored. -/
theorem fadeChannel_pos (rand : Nat → Nat) (p : Producer) (loop : Nat) (ch : Channel)
    (px : LEDPixel) (hpx : p.leds[loop]? = some px) (hc : 1 ≤ px.channel ch) :
    fadeChannel rand loop ch p =
      Except.ok { p with
        leds := p.leds.set loop (px.setChannel ch (fadeValue (px.channel ch) (rand p.randCalls)))
        randCalls := p.randCalls + 1
        writes := p.writes ++ [⟨loop, ch, fadeValue (px.channel ch) (rand p.randCalls)⟩] } := by
  have hlt : loop < p.leds.length := (List.getElem?_eq_some_iff.mp hpx).1
  have hv := (fadeValue_lt (px.channel ch) (rand p.randCalls) hc).2
  have hval : (((fadeValue (px.channel ch) (rand p.randCalls) : Nat) : Int) % 256).toNat =
      fadeValue (px.channel ch) (rand p.randCalls) := by omega
  unfold fadeChannel
  rw [hpx]
  simp only [gt_iff_lt]
  rw [if_pos (by omega)]
  unfold Producer.storeChannel Producer.randCalled
  simp only [Int.toNat_ofNat, hpx, hval]
  rw [if_pos ⟨Int.natCast_nonneg _, by exact_mod_cast hlt⟩]

/-- The fade of a channel at zero: nothing is drawn and nothing is stored. -/
theorem fadeChannel_zero (rand : Nat → Nat) (p : Producer) (loop : Nat) (ch : Channel)
    (px : LEDPixel) (hpx : p.leds[loop]? = some px) (hc : px.channel ch = 0) :
    fadeChannel rand loop ch p = Except.ok p := by
  unfold fadeChannel
  rw [hpx]
  simp [hc]

/-- The fade of one channel, in both cases: the pixel buffer changes at `leds[loop].ch` only,
to a value that is 0 if the channel was 0 and strictly smaller otherwise. -/
theorem fadeChannel_faded (rand : Nat → Nat) (p : Producer) (loop : Nat) (ch : Channel)
    (px : LEDPixel) (hpx : p.leds[loop]? = some px) :
    ∃ p1 v, fadeChannel rand loop ch p = Except.ok p1 ∧
      p1.leds = p.leds.set loop (px.setChannel ch v) ∧
      (px.channel ch = 0 → v = 0) ∧ (1 ≤ px.channel ch → v < px.channel ch) := by
  obtain ⟨hlt, hget⟩ := List.getElem?_eq_some_iff.mp hpx
  by_cases hc : px.channel ch = 0
  · refine ⟨p, 0, fadeChannel_zero rand p loop ch px hpx hc, ?_, fun _ => rfl, fun h => by omega⟩
    have hself : px.setChannel ch 0 = px := by rw [← hc]; exact setChannel_self px ch
    rw [hself]
    exact (set_same p.leds loop px hpx).symm
  · have h1 : 1 ≤ px.channel ch := by omega
    exact ⟨_, _, fadeChannel_pos rand p loop ch px hpx h1, rfl, fun h => absurd h hc,
      fun _ => (fadeValue_lt _ _ h1).1⟩

theorem fadedFrom_trans {a b c : LEDPixel} (hab : a.fadedFrom b) (hbc : b.fadedFrom c) :
    a.fadedFrom c := by
  intro ch
  obtain ⟨h1, h2⟩ := hab ch
  obtain ⟨h3, h4⟩ := hbc ch
  refine ⟨fun h => h1 (h3 h), fun h => ?_⟩
  have hb := h4 h
  by_cases hz : b.channel ch = 0
  · rw [h1 hz]; omega
  · have := h2 (by omega); omega

/-- The body of the fade loop at the index `loop`: the pixel buffer changes at `leds[loop]`
only, and that pixel is faded. -/
theorem fadePixel_faded (rand : Nat → Nat) (p : Producer) (loop : Nat) (px : LEDPixel)
    (hpx : p.leds[loop]? = some px) :
    ∃ p1 px1, fadePixel rand loop p = Except.ok p1 ∧ p1.leds = p.leds.set loop px1 ∧
      px1.fadedFrom px := by
  have hlt : loop < p.leds.length := (List.getElem?_eq_some_iff.mp hpx).1
  obtain ⟨p1, vR, h1, hl1, hR0, hR1⟩ := fadeChannel_faded rand p loop Channel.R px hpx
  have hpx1 : p1.leds[loop]? = some (px.setChannel Channel.R vR) := by
    rw [hl1, List.getElem?_set_self hlt]
  obtain ⟨p2, vG, h2, hl2, hG0, hG1⟩ := fadeChannel_faded rand p1 loop Channel.G _ hpx1
  have hpx2 : p2.leds[loop]? =
      some ((px.setChannel Channel.R vR).setChannel Channel.G vG) := by
    rw [hl2, List.getElem?_set_self (by rw [hl1, List.length_set]; exact hlt)]
  obtain ⟨p3, vB, h3, hl3, hB0, hB1⟩ := fadeChannel_faded rand p2 loop Channel.B _ hpx2
  refine ⟨p3, ((px.setChannel Channel.R vR).setChannel Channel.G vG).setChannel Channel.B vB,
    ?_, ?_, ?_⟩
  · unfold fadePixel
    simp only [bind, Except.bind, h1, h2, h3]
  · rw [hl3, hl2, hl1, List.set_set, List.set_set]
  · intro ch
    cases ch
    · exact ⟨hG0, hG1⟩
    · exact ⟨hR0, hR1⟩
    · exact ⟨hB0, hB1⟩

/-- The fade loop with `n` iterations left from the index `loop`: the pixels `loop` to
`loop + n - 1` are faded, the others are unchanged. -/
theorem fadeFill_faded (rand : Nat → Nat) (n : Nat) :
    ∀ (loop : Nat) (p : Producer), loop + n ≤ p.leds.length →
    ∃ p1, fadeFill rand n loop p = Except.ok p1 ∧ p1.leds.length = p.leds.length ∧
      ∀ (i : Nat) (px : LEDPixel), p.leds[i]? = some px →
        ∃ px1, p1.leds[i]? = some px1 ∧
          ((loop ≤ i ∧ i < loop + n) → px1.fadedFrom px) ∧
          (¬ (loop ≤ i ∧ i < loop + n) → px1 = px) := by
  induction n with
  | zero =>
    intro loop p _
    refine ⟨p, rfl, rfl, ?_⟩
    intro i px hpx
    exact ⟨px, hpx, fun h => by omega, fun _ => rfl⟩
  | succ n ih =>
    intro loop p hn
    have hlt : loop < p.leds.length := by omega
    obtain ⟨p1, pxl1, h1, hl1, hf1⟩ :=
      fadePixel_faded rand p loop p.leds[loop] (List.getElem?_eq_getElem hlt)
    have hlen1 : p1.leds.length = p.leds.length := by rw [hl1, List.length_set]
    obtain ⟨p2, h2, hlen2, hall⟩ := ih (loop + 1) p1 (by omega)
    refine ⟨p2, ?_, by rw [hlen2, hlen1], ?_⟩
    · unfold fadeFill
      simp only [bind, Except.bind, h1, h2]
    · intro i px hpx
      by_cases hi : i = loop
      · subst hi
        have hpx1 : p1.leds[i]? = some pxl1 := by rw [hl1, List.getElem?_set_self hlt]
        obtain ⟨px2, hp2, _, hsame⟩ := hall i pxl1 hpx1
        have hpxeq : p.leds[i] = px := by
          have := List.getElem?_eq_getElem hlt
          rw [hpx] at this
          exact (Option.some.inj this).symm
        rw [hsame (by omega)] at hp2
        rw [hpxeq] at hf1
        exact ⟨pxl1, hp2, fun _ => hf1, fun h => absurd ⟨le_refl _, by omega⟩ h⟩
      · have hpx1 : p1.leds[i]? = some px := by
          rw [hl1, List.getElem?_set_ne (fun h => hi h.symm)]
          exact hpx
        obtain ⟨px2, hp2, hin, hout⟩ := hall i px hpx1
        refine ⟨px2, hp2, fun h => hin ⟨by omega, by omega⟩, fun h => hout (fun hc => h ⟨by omega, by omega⟩)⟩

/-- One fade pass (the whole `for` loop) fades every pixel. -/
theorem fadePass_faded (rand : Nat → Nat) (p : Producer) (hlen : p.leds.length = LED_COUNT) :
    ∃ p1, fadeFill rand LED_COUNT 0 p = Except.ok p1 ∧ p1.leds.length = LED_COUNT ∧
      ∀ (i : Nat) (px : LEDPixel), p.leds[i]? = some px →
        ∃ px1, p1.leds[i]? = some px1 ∧ px1.fadedFrom px := by
  obtain ⟨p1, h1, hlen1, hall⟩ := fadeFill_faded rand LED_COUNT 0 p (by omega)
  refine ⟨p1, h1, by rw [hlen1, hlen], ?_⟩
  intro i px hpx
  obtain ⟨px1, hp1, hin, _⟩ := hall i px hpx
  have hi : i < p.leds.length := (List.getElem?_eq_some_iff.mp hpx).1
  exact ⟨px1, hp1, hin ⟨Nat.zero_le _, by omega⟩⟩

/-- The loop `while (droprandom--)` with at least one iteration fades every pixel. -/
theorem fadeLoop_faded (rand : Nat → Nat) (d : Nat) :
    ∀ p : Producer, p.leds.length = LED_COUNT →
    ∃ p1, fadeLoop rand (d + 1) p = Except.ok p1 ∧ p1.leds.length = LED_COUNT ∧
      ∀ (i : Nat) (px : LEDPixel), p.leds[i]? = some px →
        ∃ px1, p1.leds[i]? = some px1 ∧ px1.fadedFrom px := by
  induction d with
  | zero =>
    intro p hlen
    obtain ⟨p1, h1, hlen1, hall⟩ := fadePass_faded rand (p.emit Event.mutexEnter) hlen
    refine ⟨(p1.emit Event.mutexExit).emit (Event.sleep 100), ?_, hlen1, hall⟩
    unfold fadeLoop
    simp only [bind, Except.bind, h1]
    rfl
  | succ d ih =>
    intro p hlen
    obtain ⟨p1, h1, hlen1, hall1⟩ := fadePass_faded rand (p.emit Event.mutexEnter) hlen
    obtain ⟨p2, h2, hlen2, hall2⟩ :=
      ih ((p1.emit Event.mutexExit).emit (Event.sleep 100)) hlen1
    refine ⟨p2, ?_, hlen2, ?_⟩
    · rw [fadeLoop]
      simp only [bind, Except.bind, h1]
      exact h2
    · intro i px hpx
      obtain ⟨px1, hp1, hf1⟩ := hall1 i px hpx
      obtain ⟨px2, hp2, hf2⟩ := hall2 i px1 hp1
      exact ⟨px2, hp2, fadedFrom_trans hf2 hf1⟩

theorem storeChannel_frame {p : Producer} (hlen : p.leds.length = LED_COUNT) (i : Int)
    (ch : Channel) (v : Int) (h0 : 0 ≤ i) (h1 : i < (LED_COUNT : Int)) :
    ∃ p1, p.storeChannel i ch v = Except.ok p1 ∧ p1.leds.length = LED_COUNT ∧
      p1.randCalls = p.randCalls ∧
      ∀ j : Nat, (j : Int) ≠ i → p1.leds[j]? = p.leds[j]? := by
  have hi : i.toNat < p.leds.length := by omega
  unfold Producer.storeChannel
  rw [if_pos ⟨h0, by rw [hlen]; exact h1⟩, List.getElem?_eq_getElem hi]
  refine ⟨_, rfl, by simp only [List.length_set]; exact hlen, rfl, ?_⟩
  intro j hj
  exact List.getElem?_set_ne (by omega)

/-- The droplet changes the pixel `rand() % LED_COUNT` only. -/
theorem rainDrop_frame (rand : Nat → Nat) (p : Producer) (hlen : p.leds.length = LED_COUNT) :
    ∃ p1, rainDrop rand p = Except.ok p1 ∧ p1.leds.length = LED_COUNT ∧
      ∀ j : Nat, (j : Int) ≠ (rand p.randCalls : Int) % (LED_COUNT : Int) →
        p1.leds[j]? = p.leds[j]? := by
  have h8 : (LED_COUNT : Int) = 8 := rfl
  have h0 : (0 : Int) ≤ (rand p.randCalls : Int) % (LED_COUNT : Int) :=
    Int.emod_nonneg _ (by rw [h8]; decide)
  have h1 : (rand p.randCalls : Int) % (LED_COUNT : Int) < (LED_COUNT : Int) :=
    Int.emod_lt_of_pos _ (by rw [h8]; decide)
  obtain ⟨p1, e1, l1, _, f1⟩ := storeChannel_frame (p := p.randCalled.randCalled) hlen
    ((rand p.randCalls : Int) % (LED_COUNT : Int)) Channel.R
    ((rand p.randCalled.randCalls : Int) % 128) h0 h1
  obtain ⟨p2, e2, l2, _, f2⟩ := storeChannel_frame (p := p1.randCalled) l1
    ((rand p.randCalls : Int) % (LED_COUNT : Int)) Channel.G
    ((rand p1.randCalls : Int) % 128) h0 h1
  obtain ⟨p3, e3, l3, _, f3⟩ := storeChannel_frame (p := p2.randCalled) l2
    ((rand p.randCalls : Int) % (LED_COUNT : Int)) Channel.B
    ((rand p2.randCalls : Int) % 128) h0 h1
  refine ⟨p3, ?_, l3, ?_⟩
  · unfold rainDrop
    simp only [bind, Except.bind, e1, e2, e3]
  · intro j hj
    exact (f3 j hj).trans ((f2 j hj).trans (f1 j hj))

/-- One iteration of the outer loop of `electricRain`: a droplet, then at least one fade
pass, so every pixel but the droplet's is faded; and a loop of `n + 1` iterations is this
iteration followed by `n` more. -/
theorem rainLoop_first (rand : Nat → Nat) (p : Producer) (hlen : p.leds.length = LED_COUNT) :
    ∃ p1, rainLoop rand 1 p = Except.ok p1 ∧ p1.leds.length = LED_COUNT ∧
      (∀ n : Nat, rainLoop rand (n + 1) p = rainLoop rand n p1) ∧
      ∀ (j : Nat) (px : LEDPixel), p.leds[j]? = some px →
        (j : Int) ≠ (rand p.randCalls : Int) % (LED_COUNT : Int) →
        ∃ px1, p1.leds[j]? = some px1 ∧ px1.fadedFrom px := by
  obtain ⟨pa, ea, la, fa⟩ := rainDrop_frame rand (p.emit Event.mutexEnter) hlen
  obtain ⟨pb, eb, lb, fb⟩ := fadeLoop_faded rand (rand (pa.emit Event.mutexExit).randCalls % 10)
    (pa.emit Event.mutexExit).randCalled la
  have hstep : ∀ n : Nat, rainLoop rand (n + 1) p = rainLoop rand n pb := by
    intro n
    rw [rainLoop]
    simp only [bind, Except.bind, ea]
    rw [eb]
  refine ⟨pb, ?_, lb, hstep, ?_⟩
  · rw [hstep 0]
    rfl
  · intro j px hpx hj
    have hpa : pa.leds[j]? = some px := by
      rw [fa j hj]
      exact hpx
    exact fb j px hpa

/-- C14: in the fade pass of `electricRain`, for every channel value `c` in `1..255` and every
`rand()` value, the fade amount `rand() % (c / 4 + 1) + 1` is at least 1 and at most `c`, and
the pass stores `c - fade` to the channel, strictly below `c`, without wrapping; a channel
equal to 0 is left at 0, with no `rand()` value drawn and no store.  So one pass of the fade
loop fades every pixel, and in `electricRain` the first iteration of the outer loop fades
every pixel but the one that receives the droplet. -/
theorem fadePass_decreases (rand : Nat → Nat) (p : Producer)
    (hleds : p.leds.length = LED_COUNT) :
    (∀ (loop : Nat) (ch : Channel) (px : LEDPixel), p.leds[loop]? = some px →
      1 ≤ px.channel ch → px.channel ch ≤ 255 →
      1 ≤ rand p.randCalls % (px.channel ch / 4 + 1) + 1 ∧
      rand p.randCalls % (px.channel ch / 4 + 1) + 1 ≤ px.channel ch ∧
      px.channel ch - (rand p.randCalls % (px.channel ch / 4 + 1) + 1) < px.channel ch ∧
      fadeChannel rand loop ch p =
        Except.ok { p with
          leds := p.leds.set loop (px.setChannel ch
            (px.channel ch - (rand p.randCalls % (px.channel ch / 4 + 1) + 1)))
          randCalls := p.randCalls + 1
          writes := p.writes ++ [⟨loop, ch,
            px.channel ch - (rand p.randCalls % (px.channel ch / 4 + 1) + 1)⟩] }) ∧
    (∀ (loop : Nat) (ch : Channel) (px : LEDPixel), p.leds[loop]? = some px →
      px.channel ch = 0 → fadeChannel rand loop ch p = Except.ok p) ∧
    (∃ p1, fadeFill rand LED_COUNT 0 p = Except.ok p1 ∧
      ∀ (i : Nat) (px : LEDPixel), p.leds[i]? = some px →
        ∃ px1, p1.leds[i]? = some px1 ∧ px1.fadedFrom px) ∧
    (∃ p1, rainLoop rand 1 p.randCalled = Except.ok p1 ∧
      electricRain rand p = rainLoop rand (LED_COUNT * (3 + rand p.randCalls % 5) - 1) p1 ∧
      ∀ (j : Nat) (px : LEDPixel), p.leds[j]? = some px →
        (j : Int) ≠ (rand (p.randCalls + 1) : Int) % (LED_COUNT : Int) →
        ∃ px1, p1.leds[j]? = some px1 ∧ px1.fadedFrom px) := by
  refine ⟨?_, fadeChannel_zero rand p, ?_, ?_⟩
  · intro loop ch px hpx h1 h2
    have hm : rand p.randCalls % (px.channel ch / 4 + 1) < px.channel ch / 4 + 1 :=
      Nat.mod_lt _ (Nat.succ_pos _)
    have hpos := fadeChannel_pos rand p loop ch px hpx h1
    rw [fadeValue_eq _ _ h1 h2] at hpos
    refine ⟨Nat.succ_le_succ (Nat.zero_le _), ?_, ?_, hpos⟩
    · generalize rand p.randCalls % (px.channel ch / 4 + 1) = m at hm
      omega
    · generalize rand p.randCalls % (px.channel ch / 4 + 1) = m at hm
      omega
  · obtain ⟨p1, e1, _, hall⟩ := fadePass_faded rand p hleds
    exact ⟨p1, e1, hall⟩
  · obtain ⟨p1, e1, _, hstep, hall⟩ := rainLoop_first rand p.randCalled hleds
    refine ⟨p1, e1, ?_, hall⟩
    have hcount : LED_COUNT * (3 + rand p.randCalls % 5) =
        (LED_COUNT * (3 + rand p.randCalls % 5) - 1) + 1 := by
      rw [show LED_COUNT = 8 from rfl]
      omega
    unfold electricRain
    simp only
    rw [hcount]
    exact hstep _

/-- The claim C14 at the scenario buffer and the sample sequence of `rand()` values. -/
theorem fadePass_decreases_witness :
    scenarioProducer.leds.length = LED_COUNT ∧
    ((∀ (loop : Nat) (ch : Channel) (px : LEDPixel), scenarioProducer.leds[loop]? = some px →
      1 ≤ px.channel ch → px.channel ch ≤ 255 →
      1 ≤ scenarioRand scenarioProducer.randCalls % (px.channel ch / 4 + 1) + 1 ∧
      scenarioRand scenarioProducer.randCalls % (px.channel ch / 4 + 1) + 1 ≤ px.channel ch ∧
      px.channel ch - (scenarioRand scenarioProducer.randCalls % (px.channel ch / 4 + 1) + 1) < px.channel ch ∧
      fadeChannel scenarioRand loop ch scenarioProducer =
        Except.ok { scenarioProducer with
          leds := scenarioProducer.leds.set loop (px.setChannel ch
            (px.channel ch - (scenarioRand scenarioProducer.randCalls % (px.channel ch / 4 + 1) + 1)))
          randCalls := scenarioProducer.randCalls + 1
          writes := scenarioProducer.writes ++ [⟨loop, ch,
            px.channel ch - (scenarioRand scenarioProducer.randCalls % (px.channel ch / 4 + 1) + 1)⟩] }) ∧
    (∀ (loop : Nat) (ch : Channel) (px : LEDPixel), scenarioProducer.leds[loop]? = some px →
      px.channel ch = 0 → fadeChannel scenarioRand loop ch scenarioProducer = Except.ok scenarioProducer) ∧
    (∃ p1, fadeFill scenarioRand LED_COUNT 0 scenarioProducer = Except.ok p1 ∧
      ∀ (i : Nat) (px : LEDPixel), scenarioProducer.leds[i]? = some px →
        ∃ px1, p1.leds[i]? = some px1 ∧ px1.fadedFrom px) ∧
    (∃ p1, rainLoop scenarioRand 1 scenarioProducer.randCalled = Except.ok p1 ∧
      electricRain scenarioRand scenarioProducer = rainLoop scenarioRand (LED_COUNT * (3 + scenarioRand scenarioProducer.randCalls % 5) - 1) p1 ∧
      ∀ (j : Nat) (px : LEDPixel), scenarioProducer.leds[j]? = some px →
        (j : Int) ≠ (scenarioRand (scenarioProducer.randCalls + 1) : Int) % (LED_COUNT : Int) →
        ∃ px1, p1.leds[j]? = some px1 ∧ px1.fadedFrom px)) :=
  ⟨scenarioLeds_length, fadePass_decreases scenarioRand scenarioProducer scenarioLeds_length⟩

/-- In the scenario buffer, pixel 0 is `(G=1, R=2, B=4)`: with the `rand()` value 7 the fade
of its `B` channel is `7 % (4 / 4 + 1) + 1 = 2` and the pass stores `4 - 2 = 2`. -/
theorem fadeChannel_scenario :
    fadeChannel (fun _ => 7) 0 Channel.B scenarioProducer =
      Except.ok ⟨scenarioLeds.set 0 ⟨1, 2, 2⟩, 1, [], [⟨0, Channel.B, 2⟩]⟩ := by
  rfl

/-! ### `rollingBit`: the values written to the pixels -/

/-- A store inside the array is defined, keeps the size of the pixel buffer and adds one
entry to the log of stores. -/
theorem storeChannel_logged {p : Producer} (hlen : p.leds.length = LED_COUNT) (i : Int)
    (ch : Channel) (v : Int) (h0 : 0 ≤ i) (h1 : i < (LED_COUNT : Int))
    (errP : Producer → Prop) :
    Holds (fun p1 => p1.leds.length = LED_COUNT ∧
        p1.writes = p.writes ++ [⟨i.toNat, ch, (v % 256).toNat⟩])
      errP (p.storeChannel i ch v) := by
  have hi : i.toNat < p.leds.length := by omega
  unfold Producer.storeChannel
  rw [if_pos ⟨h0, by rw [hlen]; exact h1⟩, List.getElem?_eq_getElem hi]
  exact ⟨by simp only [List.length_set]; exact hlen, rfl⟩

theorem rollingBitStores_logged {p : Producer} (hlen : p.leds.length = LED_COUNT) (bit : Nat)
    (hbit : bit < 256) (loop : Int) (h0 : 0 ≤ loop) (h1 : loop + 3 < (LED_COUNT : Int))
    (errP : Producer → Prop) :
    Holds (fun p1 => p1.leds.length = LED_COUNT ∧
        p1.writes = p.writes ++ [⟨loop.toNat, Channel.G, bit⟩, ⟨(loop + 1).toNat, Channel.R, bit⟩,
          ⟨(loop + 2).toNat, Channel.B, bit⟩, ⟨(loop + 3).toNat, Channel.R, bit⟩,
          ⟨(loop + 3).toNat, Channel.B, bit⟩])
      errP (rollingBitStores bit loop p) := by
  have hval : ((bit : Int) % 256).toNat = bit := by omega
  unfold rollingBitStores
  refine Holds.bind (storeChannel_logged hlen loop _ _ h0 (by omega) errP) ?_
  intro p1 hp1
  refine Holds.bind (storeChannel_logged hp1.1 (loop + 1) _ _ (by omega) (by omega) errP) ?_
  intro p2 hp2
  refine Holds.bind (storeChannel_logged hp2.1 (loop + 2) _ _ (by omega) (by omega) errP) ?_
  intro p3 hp3
  refine Holds.bind (storeChannel_logged hp3.1 (loop + 3) _ _ (by omega) h1 errP) ?_
  intro p4 hp4
  refine Holds.weaken (storeChannel_logged hp4.1 (loop + 3) Channel.B bit (by omega) h1 errP)
    ?_ (fun _ h => h)
  intro p5 hp5
  refine ⟨hp5.1, ?_⟩
  rw [hp5.2, hp4.2, hp3.2, hp2.2, hp1.2, hval]
  simp only [List.append_assoc, List.cons_append, List.nil_append]

theorem rollingBitFill_logged {p : Producer} (hlen : p.leds.length = LED_COUNT) (bit : Nat)
    (hbit : bit < 256) (errP : Producer → Prop) :
    Holds (fun p1 => p1.leds.length = LED_COUNT ∧ p1.writes = p.writes ++ rollingBitPattern bit)
      errP (rollingBitFill bit ((LED_COUNT + 3) / 4) 0 p) := by
  have h2 : (LED_COUNT + 3) / 4 = 2 := rfl
  rw [h2]
  unfold rollingBitFill
  refine Holds.bind (rollingBitStores_logged hlen bit hbit 0 (le_refl _) (by decide) errP) ?_
  intro p1 hp1
  unfold rollingBitFill
  refine Holds.bind
    (rollingBitStores_logged hp1.1 bit hbit (0 + 4) (by decide) (by decide) errP) ?_
  intro p2 hp2
  refine ⟨hp2.1, ?_⟩
  rw [hp2.2, hp1.2, List.append_assoc]
  rfl

theorem rollingBitLoop_logged (errP : Producer → Prop) (count : Nat) :
    ∀ (bit : Nat) (p : Producer), bit < 256 → p.leds.length = LED_COUNT →
    Holds (fun p1 => p1.leds.length = LED_COUNT ∧
        p1.writes = p.writes ++
          ((List.range count).map
            (fun (k : Nat) => rollingBitPattern (rollingBitNext^[k] bit))).flatten)
      errP (rollingBitLoop count bit p) := by
  induction count with
  | zero =>
    intro bit p _ hlen
    exact ⟨hlen, by simp⟩
  | succ count ih =>
    intro bit p hbit hlen
    unfold rollingBitLoop
    refine Holds.bind (rollingBitFill_logged (p := p.emit Event.mutexEnter) hlen bit hbit errP) ?_
    intro p1 hp1
    refine Holds.weaken (ih (rollingBitNext bit)
      ((p1.emit Event.mutexExit).emit (Event.sleep 1000)) (rollingBitNext_lt bit) hp1.1)
      ?_ (fun _ h => h)
    intro p2 hp2
    refine ⟨hp2.1, ?_⟩
    rw [hp2.2, List.range_succ_eq_map, List.map_cons, List.flatten_cons, List.map_map]
    show p1.writes ++ _ = p.writes ++ _
    rw [hp1.2, List.append_assoc]
    rfl

theorem clearLEDsCall_logged {p : Producer} (hlen : p.leds.length = LED_COUNT)
    (errP : Producer → Prop) :
    Holds (fun p1 => p1.leds.length = LED_COUNT ∧ p1.randCalls = p.randCalls ∧
        p1.writes = p.writes ++ clearLEDsWrites)
      errP (clearLEDsCall p) := by
  unfold clearLEDsCall
  simp only [clearLEDs_eq (p.emit Event.mutexEnter).leds hlen]
  exact ⟨zeroLeds_length, rfl, rfl⟩

theorem rollingBitPattern_iterate (count : Nat) :
    (List.range count).map (fun (k : Nat) => rollingBitPattern (rollingBitNext^[k] 0x1)) =
      (List.range count).map (fun (k : Nat) => rollingBitPattern (2 ^ (k % 8))) := by
  apply List.map_congr_left
  intro k _
  rw [rollingBitNext_iterate]

/-- C17: in `rollingBit` the value of `bit` written to the pixels at step `k`, counting from
0, is `2 ^ (k mod 8)`, a value with exactly one bit set: for every sequence of `rand()`
values the routine returns, and the stores it has made are those of `clearLEDs`, then for
each step `k` of its `LED_COUNT * (2 + rand() % 2)` steps the five stores at `loop = 0` and
the five at `loop = 4`, all of the value `2 ^ (k mod 8)`, then those of `clearLEDs`; the
variable `bit` starts at `0x01`, takes the values 1, 2, 4, ..., 128 in order and is `0x01`
again after the eighth step. -/
theorem rollingBit_one_bit_set (rand : Nat → Nat) (p : Producer)
    (hleds : p.leds.length = LED_COUNT) :
    (∃ p1, rollingBit rand p = Except.ok p1 ∧
      p1.writes = p.writes ++ clearLEDsWrites ++
        ((List.range (LED_COUNT * (2 + rand p.randCalls % 2))).map
          (fun (k : Nat) => rollingBitPattern (2 ^ (k % 8)))).flatten ++ clearLEDsWrites) ∧
    (∀ k : Nat, rollingBitNext^[k] 0x1 = 2 ^ (k % 8) ∧
      ∀ j : Nat, Nat.testBit (2 ^ (k % 8)) j = decide (k % 8 = j)) ∧
    (List.range 9).map (fun (j : Nat) => rollingBitNext^[j] 0x1) =
      [1, 2, 4, 8, 16, 32, 64, 128, 1] := by
  refine ⟨?_, fun k => ⟨rollingBitNext_iterate k, fun j => Nat.testBit_two_pow⟩, by decide⟩
  have hrun : Holds (fun p1 => p1.writes = p.writes ++ clearLEDsWrites ++
        ((List.range (LED_COUNT * (2 + rand p.randCalls % 2))).map
          (fun (k : Nat) => rollingBitPattern (2 ^ (k % 8)))).flatten ++ clearLEDsWrites)
      (fun _ => False) (rollingBit rand p) := by
    unfold rollingBit
    refine Holds.bind (clearLEDsCall_logged (p := p.randCalled) hleds _) ?_
    intro p1 hp1
    refine Holds.bind (rollingBitLoop_logged _ _ 0x1 p1 (by decide) hp1.1) ?_
    intro p2 hp2
    refine Holds.weaken (clearLEDsCall_logged hp2.1 _) ?_ (fun _ h => h)
    intro p3 hp3
    rw [hp3.2.2, hp2.2, hp1.2.2, rollingBitPattern_iterate]
    rfl
  exact hrun.returns

/-- The claim C17 at the scenario buffer and the sequence `rand n = 7 * n + 3`, for which
`rollingBit` makes 24 steps. -/
theorem rollingBit_one_bit_set_witness :
    (⟨scenarioLeds, 0, [], []⟩ : Producer).leds.length = LED_COUNT ∧
    ((∃ p1, rollingBit (fun n => 7 * n + 3) ⟨scenarioLeds, 0, [], []⟩ = Except.ok p1 ∧
      p1.writes = (⟨scenarioLeds, 0, [], []⟩ : Producer).writes ++ clearLEDsWrites ++
        ((List.range (LED_COUNT * (2 + (fun n => 7 * n + 3)
            (⟨scenarioLeds, 0, [], []⟩ : Producer).randCalls % 2))).map
          (fun (k : Nat) => rollingBitPattern (2 ^ (k % 8)))).flatten ++ clearLEDsWrites) ∧
    (∀ k : Nat, rollingBitNext^[k] 0x1 = 2 ^ (k % 8) ∧
      ∀ j : Nat, Nat.testBit (2 ^ (k % 8)) j = decide (k % 8 = j)) ∧
    (List.range 9).map (fun (j : Nat) => rollingBitNext^[j] 0x1) =
      [1, 2, 4, 8, 16, 32, 64, 128, 1]) :=
  ⟨scenarioLeds_length,
    rollingBit_one_bit_set (fun n => 7 * n + 3) ⟨scenarioLeds, 0, [], []⟩ scenarioLeds_length⟩

end NeoPixel
